import Mathlib

/-
Verification of the client-side i18n engine (class I18nStatic) of the
NewHorizons repository. The definitions below are a shallow embedding of
the JavaScript source file: JSON values become an inductive tree,
JavaScript truthiness is made explicit, the translations field becomes a
map from locale code to a loaded JSON value, and each method of the class
becomes a pure function or an explicit state transformer. Browser effects
(fetch, localStorage, the URL, subscriber callbacks, innerHTML parsing,
JSON.parse of attribute maps) are passed in as explicit oracle functions,
so that each theorem quantifies over every possible behaviour of the
environment.
-/

set_option maxRecDepth 4000

namespace I18nSpec

/-- SUPPORTED_LANGUAGES mirrors the constant of the source file. -/
def SUPPORTED_LANGUAGES : List String := ["en", "es", "fr", "pt"]

/-- DEFAULT_LANGUAGE mirrors the constant of the source file. -/
def DEFAULT_LANGUAGE : String := "es"

/-- STORAGE_KEY mirrors the constant of the source file. -/
def STORAGE_KEY : String := "i18nextLng"

/-- Json models the values produced by JSON.parse: the dictionaries that
loadTranslations stores and that getTranslation walks. -/
inductive Json where
  | str (s : String)
  | num (n : Int)
  | bool (b : Bool)
  | null
  | arr (elems : List Json)
  | obj (fields : List (String × Json))

/-- jsTruthy models JavaScript truthiness of a JSON value. -/
def jsTruthy : Json → Bool
  | .str s => s != ""
  | .num n => n != 0
  | .bool b => b
  | .null => false
  | .arr _ => true
  | .obj _ => true

/-- isObjectType models the JavaScript test typeof v === "object" on a
JSON value. -/
def isObjectType : Json → Bool
  | .null => true
  | .arr _ => true
  | .obj _ => true
  | _ => false

/-- splitCharList splits a character list at every occurrence of the
separator, keeping empty pieces, like the JavaScript String.split method
with a single-character separator. -/
def splitCharList (sep : Char) : List Char → List (List Char)
  | [] => [[]]
  | c :: rest =>
    match splitCharList sep rest with
    | s :: ss => if c == sep then [] :: s :: ss else (c :: s) :: ss
    | [] => [[]]

/-- jsSplit models the JavaScript call s.split(sep) for a one-character
separator: the empty string gives the one-element list of the empty
string, and adjacent separators give empty pieces. -/
def jsSplit (s : String) (sep : Char) : List String :=
  (splitCharList sep s.data).map String.mk

/-- jsOr models the JavaScript or-else expression a || b where the left
operand is a possibly undefined property read: the left value is kept
exactly when it is present and truthy. -/
def jsOr (a : Option Json) (b : Json) : Json :=
  match a with
  | some v => if jsTruthy v then v else b
  | none => b

/-- jsIndex models the member access value[k] performed inside the walk
loop of getTranslation after the object-type test: object fields are
looked up by name (JSON.parse keeps the last duplicate key, hence the
reversed search), arrays are indexed by a canonical numeric string, and
none stands for an access that yields undefined. -/
def jsIndex (v : Json) (k : String) : Option Json :=
  match v with
  | .obj fields =>
    match fields.reverse.find? (fun p => p.1 == k) with
    | some p => some p.2
    | none => none
  | .arr elems =>
    match k.toNat? with
    | some i => if toString i == k then elems.get? i else none
    | none => none
  | _ => none

/-- jsWalk models the for-loop of getTranslation: starting from a JSON
value it follows one dot-separated segment at a time, and whenever the
current value is not a truthy object-typed value, or the member access
yields undefined, the loop ends with the variable value undefined. The
result is none exactly when that variable ends as undefined. -/
def jsWalk (v : Json) (ks : List String) : Option Json :=
  match ks with
  | [] => some v
  | k :: rest =>
    if jsTruthy v && isObjectType v then
      match jsIndex v k with
      | some v2 => jsWalk v2 rest
      | none => none
    else
      none

/-- Store models the translations field of I18nStatic: a map from locale
code to the dictionary stored for it, none when the locale was never
stored. -/
abbrev Store := String → Option Json

/-- Store.set models the assignment this.translations[lang] = d. -/
def Store.set (st : Store) (lang : String) (d : Json) : Store :=
  fun l => if l == lang then some d else st l

/-- Store.empty is the initial translations value, the empty object
literal of the constructor. -/
def Store.empty : Store := fun _ => none

/-- I18nState is the part of the instance state read by getTranslation. -/
structure I18nState where
  currentLang : String
  translations : Store

/-- jsTargetLang models the expression lang || this.currentLang for an
optional string argument: null and the empty string are falsy and fall
back to the current language. -/
def jsTargetLang (current : String) (lang : Option String) : String :=
  match lang with
  | some l => if l == "" then current else l
  | none => current

/-- getTranslation is a direct embedding of I18nStatic.getTranslation.
The key argument is an Option so that a null key can be passed; the
falsiness test if (!key) covers both none and the empty string. -/
def getTranslation (st : I18nState) (key : Option String) (lang : Option String) : String :=
  match key with
  | none => ""
  | some k =>
    if k == "" then ""
    else
      let targetLang := jsTargetLang st.currentLang lang
      let dict := jsOr (st.translations targetLang)
        (jsOr (st.translations DEFAULT_LANGUAGE) (.obj []))
      let ks := jsSplit k '.'
      let value := jsWalk dict ks
      let value2 :=
        if value.isNone && targetLang != DEFAULT_LANGUAGE then
          jsWalk (jsOr (st.translations DEFAULT_LANGUAGE) (.obj [])) ks
        else value
      match value2 with
      | some (.str s) => s
      | _ => k

/-- storeGetTruthy models the memo test if (this.translations[lang]) at
the top of loadTranslations: some exactly when a truthy dictionary is
already stored. -/
def storeGetTruthy (st : Store) (lang : String) : Option Json :=
  match st lang with
  | some d => if jsTruthy d then some d else none
  | none => none

/-- loadTranslationsDefault is the body of I18nStatic.loadTranslations
specialized to the default language, where the catch branch cannot recurse
because the guard lang !== DEFAULT_LANGUAGE is false. The oracle
fetchResult gives the parsed JSON body of a successful fetch of the locale
file, and none for a network error, a non-ok status, or a JSON parse
failure, all of which land in the catch branch. The returned pair is the
updated memo store and the value the promise resolves with. -/
def loadTranslationsDefault (fetchResult : String → Option Json) (st : Store) :
    Store × Json :=
  match storeGetTruthy st DEFAULT_LANGUAGE with
  | some d => (st, d)
  | none =>
    match fetchResult DEFAULT_LANGUAGE with
    | some d => (Store.set st DEFAULT_LANGUAGE d, d)
    | none => (st, jsOr (st DEFAULT_LANGUAGE) (.obj []))

/-- loadTranslations models the general call. The recursive call of the
source is always made with the default language, for which the recursion
stops at once, so it is embedded as the call to loadTranslationsDefault
above (the theorem loadTranslations_default_eq checks that the unfolding
agrees with the general definition at the default language). -/
def loadTranslations (fetchResult : String → Option Json) (st : Store) (lang : String) :
    Store × Json :=
  match storeGetTruthy st lang with
  | some d => (st, d)
  | none =>
    match fetchResult lang with
    | some d => (Store.set st lang d, d)
    | none =>
      if lang != DEFAULT_LANGUAGE && (storeGetTruthy st DEFAULT_LANGUAGE).isNone then
        loadTranslationsDefault fetchResult st
      else
        (st, jsOr (st DEFAULT_LANGUAGE) (.obj []))

/-- DetectEnv models the three browser signal sources read by
detectLanguage. An error value stands for a source whose evaluation
throws, ok none for an absent signal (absent API, null value), and ok some
for a string value read from the source. -/
structure DetectEnv where
  urlLang : Except Unit (Option String)
  storedLang : Except Unit (Option String)
  navigatorLang : Except Unit (Option String)

/-- validSignal models the guard value && SUPPORTED_LANGUAGES.includes(value)
used for the URL and storage sources. -/
def validSignal (v : Option String) : Bool :=
  match v with
  | some l => l != "" && SUPPORTED_LANGUAGES.contains l
  | none => false

/-- detectBody models the single try-block of detectLanguage: the three
sources are read in order inside one try, so a throwing source aborts the
whole block into the catch. An ok some result is a validated locale and ok
none means no source yielded one. -/
def detectBody (env : DetectEnv) : Except Unit (Option String) :=
  match env.urlLang with
  | .error e => .error e
  | .ok u =>
    if validSignal u then .ok u
    else
      match env.storedLang with
      | .error e => .error e
      | .ok sv =>
        if validSignal sv then .ok sv
        else
          match env.navigatorLang with
          | .error e => .error e
          | .ok nl =>
            match nl with
            | some navLang =>
              if navLang != "" then
                if SUPPORTED_LANGUAGES.contains ((jsSplit navLang '-').headD "") then
                  .ok (some ((jsSplit navLang '-').headD ""))
                else .ok none
              else .ok none
            | none => .ok none

/-- detectLanguage models I18nStatic.detectLanguage: both the catch clause
and the final fall-through return the default language. -/
def detectLanguage (env : DetectEnv) : String :=
  match detectBody env with
  | .ok (some l) => l
  | .ok none => DEFAULT_LANGUAGE
  | .error _ => DEFAULT_LANGUAGE

/-- pluralize is a direct embedding of I18nStatic.pluralize; the count is
an integer, as the claim quantifies over negative counts as well. -/
def pluralize (current : String) (count : Int) (singular plural : String)
    (lang : Option String) : String :=
  let targetLang := jsTargetLang current lang
  if targetLang == "fr" then
    if count ≤ 1 then singular else plural
  else if targetLang == "pt" then
    if count ≤ 1 then singular else plural
  else
    if count == 1 then singular else plural

/-- ElemKind distinguishes the element classes that updateElement tests
with instanceof: form inputs, text areas, option elements, and every other
element. -/
inductive ElemKind where
  | input
  | textarea
  | option
  | generic
deriving DecidableEq

/-- Attrs models the attribute map of an element, as read by getAttribute
and written by setAttribute; none stands for an absent attribute. -/
abbrev Attrs := String → Option String

/-- setAttr models element.setAttribute. -/
def setAttr (a : Attrs) (n v : String) : Attrs :=
  fun m => if m == n then some v else a m

/-- ElemInfo carries the per-element state other than child nodes: the
element class, the value property of form controls, and the attributes.
The placeholder property reflects onto the placeholder attribute, so
writing it is a setAttr; the value property does not reflect onto the
value attribute, so it is a separate field. -/
structure ElemInfo where
  kind : ElemKind
  value : String
  attrs : Attrs

/-- DomNode models a DOM node: a text node with its content, or an
element with its per-element state and its list of child nodes. -/
inductive DomNode where
  | text (content : String)
  | elem (info : ElemInfo) (children : List DomNode)

/-- isElemNode tells whether a node is counted by element.children. -/
def isElemNode : DomNode → Bool
  | .elem _ _ => true
  | .text _ => false

/-- elemType models the type property read by updateElement: the type
attribute, with the DOM default for the control when the attribute is
absent. -/
def elemType (info : ElemInfo) : String :=
  match info.kind with
  | .textarea => "textarea"
  | _ => (info.attrs "type").getD "text"

mutual
/-- textContentNode models the textContent read of a node: the
concatenation of all descendant text. -/
def textContentNode : DomNode → String
  | .text c => c
  | .elem _ cs => textContentList cs
/-- textContentList concatenates the text content of a node list. -/
def textContentList : List DomNode → String
  | [] => ""
  | n :: ns => textContentNode n ++ textContentList ns
end

/-- setTextContent models the assignment element.textContent = t: every
child is removed and a single new text node holds t, except that the
empty string leaves no child at all. -/
def setTextContent (t : String) : List DomNode :=
  if t == "" then [] else [.text t]

/-- isSpaceChar covers the common blank characters; the JavaScript trim
removes exactly the unicode blanks, of which the documents in this
development only ever contain these. -/
def isSpaceChar (c : Char) : Bool :=
  c == ' ' || c == '\t' || c == '\n' || c == '\r'

/-- jsTrim models the JavaScript String.prototype.trim call used on text
node content: blanks are removed from both ends. -/
def jsTrim (s : String) : String :=
  String.mk (((s.data.dropWhile isSpaceChar).reverse.dropWhile isSpaceChar).reverse)

/-- hasLoopText holds for the nodes the childNodes loop of updateElement
stops at: direct text children whose trimmed content is non-empty. -/
def hasLoopText : DomNode → Bool
  | .text c => jsTrim c != ""
  | .elem _ _ => false

/-- replaceFirstText models the childNodes loop of updateElement: the
first direct text child whose trimmed content is non-empty receives the
translation, and none reports that no such child exists. -/
def replaceFirstText : List DomNode → String → Option (List DomNode)
  | [], _ => none
  | n :: rest, t =>
    match n with
    | .text c =>
      if jsTrim c != "" then some (.text t :: rest)
      else
        match replaceFirstText rest t with
        | some rest2 => some (.text c :: rest2)
        | none => none
    | .elem i k =>
      match replaceFirstText rest t with
      | some rest2 => some (.elem i k :: rest2)
      | none => none

/-- updateElement models I18nStatic.updateElement as a pure function on
the element node. -/
def updateElement (node : DomNode) (translation : String) : DomNode :=
  match node with
  | .text c => .text c
  | .elem info cs =>
    match info.kind with
    | .input =>
      if elemType info == "submit" || elemType info == "button" then
        .elem { info with value := translation } cs
      else
        .elem { info with attrs := setAttr info.attrs "placeholder" translation } cs
    | .textarea =>
      if elemType info == "submit" || elemType info == "button" then
        .elem { info with value := translation } cs
      else
        .elem { info with attrs := setAttr info.attrs "placeholder" translation } cs
    | .option => .elem info (setTextContent translation)
    | .generic =>
      if 0 < (cs.filter isElemNode).length then
        match replaceFirstText cs translation with
        | some cs2 => .elem info cs2
        | none => .elem info (.text translation :: cs)
      else
        if textContentList cs != translation then .elem info (setTextContent translation)
        else .elem info cs

/-- applicable models the guard translation && translation !== key used
by every branch of applyTranslations. -/
def applicable (tr : String → String) (key : String) : Bool :=
  tr key != "" && tr key != key

/-- updateIfMarked models the data-i18n branch for one element: a present
non-empty key whose resolution passes the guard leads to updateElement. -/
def updateIfMarked (tr : String → String) (node : DomNode) : DomNode :=
  match node with
  | .text c => .text c
  | .elem info cs =>
    match info.attrs "data-i18n" with
    | some key =>
      if key != "" && applicable tr key then updateElement (.elem info cs) (tr key)
      else .elem info cs
    | none => .elem info cs

mutual
/-- textPassNode models the data-i18n pass over a subtree. The static
NodeList of the source lists an element before its descendants, and
updateElement changes only direct text children, never element children,
so the snapshot iteration behaves as this structural recursion. -/
def textPassNode (tr : String → String) : DomNode → DomNode
  | .text c => .text c
  | .elem info cs => updateIfMarked tr (.elem info (textPassList tr cs))
/-- textPassList maps the data-i18n pass over a node list. -/
def textPassList (tr : String → String) : List DomNode → List DomNode
  | [] => []
  | n :: ns => textPassNode tr n :: textPassList tr ns
end

mutual
/-- htmlPassNode models the data-i18n-html pass: an applicable marker
replaces the interior of the element with the parsed translation given by
the oracle ph. The NodeList snapshot of the source predates that
replacement, so the fresh interior is not revisited, and the detached old
interior is updated only unobservably. -/
def htmlPassNode (tr : String → String) (ph : String → List DomNode) : DomNode → DomNode
  | .text c => .text c
  | .elem info cs =>
    match info.attrs "data-i18n-html" with
    | some key =>
      if key != "" && applicable tr key then .elem info (ph (tr key))
      else .elem info (htmlPassList tr ph cs)
    | none => .elem info (htmlPassList tr ph cs)
/-- htmlPassList maps the data-i18n-html pass over a node list. -/
def htmlPassList (tr : String → String) (ph : String → List DomNode) :
    List DomNode → List DomNode
  | [] => []
  | n :: ns => htmlPassNode tr ph n :: htmlPassList tr ph ns
end

/-- applyAttrEntries models the forEach over Object.keys of the parsed
attribute map: each entry whose resolution passes the guard writes the
translation into the named attribute. -/
def applyAttrEntries (tr : String → String) (entries : List (String × String)) (a : Attrs) :
    Attrs :=
  match entries with
  | [] => a
  | (n, key) :: rest =>
    applyAttrEntries tr rest (if applicable tr key then setAttr a n (tr key) else a)

/-- attrUpdateInfo models the data-i18n-attr branch on one element: a
present non-empty marker is parsed with the JSON.parse oracle pj, and a
parse failure is caught and leaves the element unchanged. -/
def attrUpdateInfo (tr : String → String) (pj : String → Option (List (String × String)))
    (info : ElemInfo) : ElemInfo :=
  match info.attrs "data-i18n-attr" with
  | some attrData =>
    if attrData != "" then
      match pj attrData with
      | some entries => { info with attrs := applyAttrEntries tr entries info.attrs }
      | none => info
    else info
  | none => info

mutual
/-- attrPassNode models the data-i18n-attr pass over a subtree; it never
changes the tree structure, only attribute maps. -/
def attrPassNode (tr : String → String) (pj : String → Option (List (String × String))) :
    DomNode → DomNode
  | .text c => .text c
  | .elem info cs => .elem (attrUpdateInfo tr pj info) (attrPassList tr pj cs)
/-- attrPassList maps the data-i18n-attr pass over a node list. -/
def attrPassList (tr : String → String) (pj : String → Option (List (String × String))) :
    List DomNode → List DomNode
  | [] => []
  | n :: ns => attrPassNode tr pj n :: attrPassList tr pj ns
end

/-- Document models the parts of the page that the synchronization pass
touches: the body tree, the document title, the content attribute of the
description meta element when that element exists, and the content of the
two metadata marker elements. -/
structure Document where
  body : List DomNode
  title : String
  metaDescription : Option String
  i18nTitleKey : Option String
  i18nDescKey : Option String

/-- metaPass models the title and description branches of
applyTranslations. -/
def metaPass (tr : String → String) (doc : Document) : Document :=
  let doc1 :=
    match doc.i18nTitleKey with
    | some key =>
      if key != "" && applicable tr key then { doc with title := tr key } else doc
    | none => doc
  match doc1.i18nDescKey with
  | some key =>
    if key != "" then
      match doc1.metaDescription with
      | some _ =>
        if applicable tr key then { doc1 with metaDescription := some (tr key) } else doc1
      | none => doc1
    else doc1
  | none => doc1

/-- fullPassNode is the composition of the three element passes at one
node, in the order of the source. -/
def fullPassNode (tr : String → String) (ph : String → List DomNode)
    (pj : String → Option (List (String × String))) (n : DomNode) : DomNode :=
  attrPassNode tr pj (htmlPassNode tr ph (textPassNode tr n))

/-- fullPassList is the composition of the three element passes over the
body, in the order of the source. -/
def fullPassList (tr : String → String) (ph : String → List DomNode)
    (pj : String → Option (List (String × String))) (l : List DomNode) : List DomNode :=
  attrPassList tr pj (htmlPassList tr ph (textPassList tr l))

/-- applyTranslationsBody is one full synchronization pass: the three
element passes over the body followed by the metadata pass. -/
def applyTranslationsBody (tr : String → String) (ph : String → List DomNode)
    (pj : String → Option (List (String × String))) (doc : Document) : Document :=
  metaPass tr { doc with body := fullPassList tr ph pj doc.body }

/-- applyTranslations models I18nStatic.applyTranslations with its
reentrancy guard: a call while the isApplying flag is set is a no-op, and
the finally branch clears the flag, so the flag is false again after
every call. The observer disconnect and reconnect bracket does not touch
the document state and is not modeled. -/
def applyTranslations (tr : String → String) (ph : String → List DomNode)
    (pj : String → Option (List (String × String))) (isApplying : Bool)
    (doc : Document) : Document :=
  if isApplying then doc else applyTranslationsBody tr ph pj doc

/-- NotifyEvent records one subscriber invocation: the argument passed
and whether the callback raised. -/
structure NotifyEvent where
  arg : String
  raised : Bool
deriving DecidableEq

/-- notifyObservers models I18nStatic.notifyObservers: the callbacks run
in registration order, each inside its own try, so a raising callback is
caught and the loop continues with the next one. The result is the
invocation trace. -/
def notifyObservers (obs : List (String → Except Unit Unit)) (lang : String) :
    List NotifyEvent :=
  match obs with
  | [] => []
  | cb :: rest =>
    (match cb lang with
     | .ok _ => { arg := lang, raised := false }
     | .error _ => { arg := lang, raised := true }) :: notifyObservers rest lang

/-- onLanguageChange models I18nStatic.onLanguageChange for function
values (the typeof test of the source holds for them): the callback is
appended to the observer list. -/
def onLanguageChange (obs : List (String → Except Unit Unit))
    (cb : String → Except Unit Unit) : List (String → Except Unit Unit) :=
  obs ++ [cb]

/-- EngineState gathers the instance state and the browser state that
changeLanguage touches. -/
structure EngineState where
  currentLang : String
  translations : Store
  storedLang : Option String
  documentLang : String
  doc : Document
  observers : List (String → Except Unit Unit)
  isApplying : Bool

/-- changeLanguage models I18nStatic.changeLanguage as a state
transformer returning the subscriber invocation trace. storageOk tells
whether localStorage.setItem succeeds; its failure is caught and only
skips the persist step. The custom window event dispatch has no effect on
engine state and is not modeled; document.documentElement is taken as
present. -/
def changeLanguage (fetchResult : String → Option Json)
    (ph : String → List DomNode) (pj : String → Option (List (String × String)))
    (storageOk : Bool) (st : EngineState) (lang : String) :
    EngineState × List NotifyEvent :=
  if SUPPORTED_LANGUAGES.contains lang then
    let st1 : EngineState := { st with currentLang := lang }
    let st2 : EngineState := if storageOk then { st1 with storedLang := some lang } else st1
    let st3 : EngineState := { st2 with documentLang := lang }
    let loaded := loadTranslations fetchResult st3.translations lang
    let st4 : EngineState := { st3 with translations := loaded.1 }
    let tr := fun k => getTranslation ⟨st4.currentLang, st4.translations⟩ (some k) none
    let st5 : EngineState := { st4 with doc := applyTranslations tr ph pj st4.isApplying st4.doc }
    (st5, notifyObservers st5.observers lang)
  else
    (st, [])

mutual
/-- countNode measures a subtree by its number of nodes; the measure
separates the two sides of the idempotence counterexample. -/
def countNode : DomNode → Nat
  | .text _ => 1
  | .elem _ cs => 1 + countList cs
/-- countList measures a node list by its number of nodes. -/
def countList : List DomNode → Nat
  | [] => 0
  | n :: ns => countNode n + countList ns
end

/-- trBlank is the translation oracle of the idempotence counterexample:
the key k resolves to a single blank, every other key to itself. -/
def trBlank : String → String := fun key => if key == "k" then " " else key

/-- docBlank is the document of the idempotence counterexample: one
plain-text marker element holding one element child and one text child. -/
def docBlank : Document :=
  { body := [DomNode.elem
      ⟨ElemKind.generic, "", fun n => if n == "data-i18n" then some "k" else none⟩
      [DomNode.elem ⟨ElemKind.generic, "", fun _ => none⟩ [], DomNode.text "hi"]],
    title := "", metaDescription := none, i18nTitleKey := none, i18nDescKey := none }

/-- lastWrite computes the value that a run of applyAttrEntries leaves in
a given attribute: the last applicable entry for that name wins, none
when no entry writes it. -/
def lastWrite (tr : String → String) : List (String × String) → String → Option String
  | [], _ => none
  | (n, key) :: rest, m =>
    match lastWrite tr rest m with
    | some v => some v
    | none => if m == n && applicable tr key then some (tr key) else none

/-- safeEntries states that a parsed attribute map never writes the three
marker attributes or the type attribute, the four attributes that the
passes read. -/
def safeEntries (entries : List (String × String)) : Prop :=
  ∀ p ∈ entries, p.1 ≠ "data-i18n" ∧ p.1 ≠ "data-i18n-html" ∧
    p.1 ≠ "data-i18n-attr" ∧ p.1 ≠ "type"

/-- wDictFr is a small dictionary for the locale fr, used by the concrete
witnesses. -/
def wDictFr : Json := .obj [("a", .obj [("b", .str "bonjour")])]

/-- wDictEs is a small dictionary for the default locale, used by the
concrete witnesses. -/
def wDictEs : Json := .obj [("a", .obj [("b", .str "hola"), ("z", .str "zeta")])]

/-- wStore is a witness store with the fr and es dictionaries loaded. -/
def wStore : Store :=
  fun l => if l == "fr" then some wDictFr else if l == "es" then some wDictEs else none

/-- wFetch is a witness fetch oracle where only the default locale file
resolves. -/
def wFetch : String → Option Json := fun l => if l == "es" then some wDictEs else none

/-- phEmpty is an innerHTML parse oracle producing an empty interior. -/
def phEmpty : String → List DomNode := fun _ => []

/-- pjNone is a JSON.parse oracle on which every attribute map fails to
parse. -/
def pjNone : String → Option (List (String × String)) := fun _ => none

/-- wDoc is an empty witness document. -/
def wDoc : Document :=
  { body := [], title := "", metaDescription := none,
    i18nTitleKey := none, i18nDescKey := none }

/-- wObservers is a witness subscriber list whose middle callback
raises. -/
def wObservers : List (String → Except Unit Unit) :=
  [fun _ => .ok (), fun _ => .error (), fun _ => .ok ()]

/-- wEngine is a witness engine state. -/
def wEngine : EngineState :=
  { currentLang := "es", translations := Store.empty, storedLang := none,
    documentLang := "es", doc := wDoc, observers := wObservers, isApplying := false }

/-- wInfoG is a plain generic element descriptor with no attributes. -/
def wInfoG : ElemInfo := ⟨ElemKind.generic, "", fun _ => none⟩

/-- wIcon is a childless element node, standing for an embedded icon. -/
def wIcon : DomNode := DomNode.elem wInfoG []

/-- wKids is a child list holding one element child and one text child. -/
def wKids : List DomNode := [wIcon, DomNode.text "hello"]

/-
Theorems. Helper lemmas come first, then for each claim its theorem, and
a witness or counterexample theorem where one is due.
-/

theorem jsOr_absorb (a : Option Json) (b : Json) : jsOr a (jsOr a b) = jsOr a b := by
  unfold jsOr
  cases a with
  | none => rfl
  | some v => by_cases h : jsTruthy v <;> simp [h]

theorem jsOr_of_untruthy (st : Store) (l : String) (b : Json)
    (h : storeGetTruthy st l = none) : jsOr (st l) b = b := by
  unfold storeGetTruthy at h
  unfold jsOr
  cases hsl : st l with
  | none => rfl
  | some d =>
    rw [hsl] at h
    by_cases ht : jsTruthy d <;> simp [ht] at h ⊢

/-- C1: for a supported locale L whose dictionary is loaded, a dotted key
whose walk reaches a string leaf in the dictionary of L resolves to that
leaf value, not the default value; and a key whose walk fails in the
dictionary of L (a missing segment or a non-traversable node) but reaches
a string leaf in the default dictionary resolves to the default leaf. -/
theorem getTranslation_locale_then_default
    (st : I18nState) (L k s : String) (dL : Json)
    (hsup : L ∈ SUPPORTED_LANGUAGES) (hk : k ≠ "")
    (hload : st.translations L = some dL) (htr : jsTruthy dL = true) :
    (jsWalk dL (jsSplit k '.') = some (.str s) →
      getTranslation st (some k) (some L) = s) ∧
    (∀ dD : Json, jsWalk dL (jsSplit k '.') = none →
      st.translations DEFAULT_LANGUAGE = some dD → jsTruthy dD = true →
      jsWalk dD (jsSplit k '.') = some (.str s) →
      getTranslation st (some k) (some L) = s) := by
  have hLne : L ≠ "" := by
    intro h
    subst h
    simp [SUPPORTED_LANGUAGES] at hsup
  have hkb : (k == "") = false := beq_eq_false_iff_ne.mpr hk
  have hLb : (L == "") = false := beq_eq_false_iff_ne.mpr hLne
  constructor
  · intro hwalk
    simp [getTranslation, jsTargetLang, hkb, hLb, hload, htr, jsOr, hwalk]
  · intro dD hnone hloadD htrD hwalkD
    by_cases hLD : L = DEFAULT_LANGUAGE
    · rw [hLD] at hload
      rw [hload] at hloadD
      have : dL = dD := by injection hloadD
      subst this
      rw [hnone] at hwalkD
      exact absurd hwalkD (by simp)
    · have hLDb : (L != DEFAULT_LANGUAGE) = true := bne_iff_ne.mpr hLD
      simp [getTranslation, jsTargetLang, hkb, hLb, hload, htr, jsOr, hnone,
        hLDb, hloadD, htrD, hwalkD]

/-- C1 witness: the theorem applied at a concrete loaded state, in both
its leaf case and its fallback case. -/
theorem getTranslation_locale_then_default_witness :
    getTranslation ⟨"fr", wStore⟩ (some "a.b") (some "fr") = "bonjour" ∧
    getTranslation ⟨"fr", wStore⟩ (some "a.z") (some "fr") = "zeta" := by
  constructor
  · exact (getTranslation_locale_then_default ⟨"fr", wStore⟩ "fr" "a.b" "bonjour" wDictFr
      (by decide) (by decide) rfl rfl).1 rfl
  · exact (getTranslation_locale_then_default ⟨"fr", wStore⟩ "fr" "a.z" "zeta" wDictFr
      (by decide) (by decide) rfl rfl).2 wDictEs rfl rfl rfl rfl

/-- C2: getTranslation is total into String, so it never raises and never
returns another type; when the walk fails both in the effective dictionary
of the requested locale and in the effective default dictionary (which
covers a fully empty store), the original key comes back verbatim; and an
absent or empty key yields the empty string immediately. -/
theorem getTranslation_full_miss_and_empty
    (st : I18nState) (k : String) (lang : Option String) (hk : k ≠ "")
    (hreq : jsWalk (jsOr (st.translations (jsTargetLang st.currentLang lang))
        (jsOr (st.translations DEFAULT_LANGUAGE) (.obj []))) (jsSplit k '.') = none)
    (hdef : jsWalk (jsOr (st.translations DEFAULT_LANGUAGE) (.obj [])) (jsSplit k '.') = none) :
    getTranslation st (some k) lang = k ∧
    (∀ l2 : Option String, getTranslation st none l2 = "" ∧
      getTranslation st (some "") l2 = "") := by
  have hkb : (k == "") = false := beq_eq_false_iff_ne.mpr hk
  constructor
  · by_cases hTD : jsTargetLang st.currentLang lang = DEFAULT_LANGUAGE
    · simp [getTranslation, hkb, hTD] at hreq ⊢
      simp [hreq, hTD]
    · have hTDb : (jsTargetLang st.currentLang lang != DEFAULT_LANGUAGE) = true :=
        bne_iff_ne.mpr hTD
      simp [getTranslation, hkb, hreq, hdef, hTDb]
  · intro l2
    exact ⟨rfl, rfl⟩

/-- C2 witness: the theorem applied to an empty store. -/
theorem getTranslation_full_miss_witness :
    getTranslation ⟨"fr", Store.empty⟩ (some "x.y") (some "fr") = "x.y" ∧
    getTranslation ⟨"fr", Store.empty⟩ none none = "" := by
  have h := getTranslation_full_miss_and_empty ⟨"fr", Store.empty⟩ "x.y" (some "fr")
    (by decide) rfl rfl
  exact ⟨h.1, (h.2 none).1⟩

/-- C10: pluralize returns the singular form exactly on counts at most
one when the target locale (the argument, with the current language as
fallback) is fr or pt, and exactly on count one for every other locale. -/
theorem pluralize_singular_iff
    (current : String) (count : Int) (singular plural : String) (lang : Option String)
    (hne : singular ≠ plural) :
    ((jsTargetLang current lang = "fr" ∨ jsTargetLang current lang = "pt") →
      (pluralize current count singular plural lang = singular ↔ count ≤ 1)) ∧
    (jsTargetLang current lang ≠ "fr" → jsTargetLang current lang ≠ "pt" →
      (pluralize current count singular plural lang = singular ↔ count = 1)) := by
  constructor
  · rintro (h | h) <;>
      · simp only [pluralize, h]
        by_cases hc : count ≤ 1 <;> simp [hc, hne, Ne.symm hne]
  · intro h1 h2
    have b1 : (jsTargetLang current lang == "fr") = false := beq_eq_false_iff_ne.mpr h1
    have b2 : (jsTargetLang current lang == "pt") = false := beq_eq_false_iff_ne.mpr h2
    simp only [pluralize, b1, b2]
    by_cases hc : count = 1 <;> simp [hc, hne, Ne.symm hne]

/-- C10 witness: the theorem applied at count zero for pt and for en. -/
theorem pluralize_singular_iff_witness :
    (pluralize "en" 0 "day" "days" (some "pt") = "day" ↔ (0 : Int) ≤ 1) ∧
    (pluralize "en" 0 "day" "days" none = "day" ↔ (0 : Int) = 1) := by
  constructor
  · exact (pluralize_singular_iff "en" 0 "day" "days" (some "pt")
      (by decide)).1 (Or.inr (by decide))
  · exact (pluralize_singular_iff "en" 0 "day" "days" none
      (by decide)).2 (by decide) (by decide)

theorem mem_of_contains {l : List String} {a : String} (h : l.contains a = true) : a ∈ l :=
  List.mem_of_elem_eq_true h

theorem not_mem_of_contains_false {l : List String} {a : String}
    (h : l.contains a = false) : a ∉ l := by
  intro hm
  have h2 : l.contains a = true := List.elem_eq_true_of_mem hm
  rw [h2] at h
  cases h

/-- C4 counterexample: the URL yields no signal, the storage read throws,
and the browser reports the supported language fr. The claim predicts
that the failing source counts as no signal and the next source is still
consulted, so detection should give fr; but the three reads share one
try-catch, so the thrown storage read aborts detection to the default
language es. -/
theorem detectLanguage_throw_aborts :
    detectLanguage ⟨.ok none, .error (), .ok (some "fr")⟩ = "es" ∧
    "fr" ∈ SUPPORTED_LANGUAGES ∧ "fr" ≠ "es" := by
  refine ⟨rfl, by decide, by decide⟩

/-- C4 amended: detectLanguage consults the URL, then storage, then the
browser language, then the fixed default, returning the first validated
value, and an absent or invalid signal falls through to the next source;
but an exception thrown by any source aborts the whole detection to the
fixed default, because the three reads share a single try block. The
function is total, so detection itself never raises. -/
theorem detectLanguage_priority (env : DetectEnv) :
    (∀ l, env.urlLang = .ok (some l) → validSignal (some l) = true →
      detectLanguage env = l) ∧
    (∀ u l, env.urlLang = .ok u → validSignal u = false →
      env.storedLang = .ok (some l) → validSignal (some l) = true →
      detectLanguage env = l) ∧
    (∀ u v nv, env.urlLang = .ok u → validSignal u = false →
      env.storedLang = .ok v → validSignal v = false →
      env.navigatorLang = .ok (some nv) → nv ≠ "" →
      SUPPORTED_LANGUAGES.contains ((jsSplit nv '-').headD "") = true →
      detectLanguage env = (jsSplit nv '-').headD "") ∧
    (∀ u v w, env.urlLang = .ok u → validSignal u = false →
      env.storedLang = .ok v → validSignal v = false →
      env.navigatorLang = .ok w →
      (∀ nv, w = some nv → nv ≠ "" →
        SUPPORTED_LANGUAGES.contains ((jsSplit nv '-').headD "") = false) →
      detectLanguage env = DEFAULT_LANGUAGE) ∧
    (env.urlLang = .error () → detectLanguage env = DEFAULT_LANGUAGE) ∧
    (∀ u, env.urlLang = .ok u → validSignal u = false → env.storedLang = .error () →
      detectLanguage env = DEFAULT_LANGUAGE) ∧
    (∀ u v, env.urlLang = .ok u → validSignal u = false → env.storedLang = .ok v →
      validSignal v = false → env.navigatorLang = .error () →
      detectLanguage env = DEFAULT_LANGUAGE) := by
  refine ⟨?_, ?_, ?_, ?_, ?_, ?_, ?_⟩
  · intro l hu hv
    simp [detectLanguage, detectBody, hu, hv]
  · intro u l hu hv hs hsv
    simp [detectLanguage, detectBody, hu, hv, hs, hsv]
  · intro u v nv hu hv hs hsv hn hnv hc
    have hnvb : (nv != "") = true := bne_iff_ne.mpr hnv
    have hm : (jsSplit nv '-').head?.getD "" ∈ SUPPORTED_LANGUAGES := by
      simpa using mem_of_contains hc
    simp [detectLanguage, detectBody, hu, hv, hs, hsv, hn, hnvb, hm]
  · intro u v w hu hv hs hsv hn hw
    simp only [detectLanguage, detectBody, hu, hv, hs, hsv, hn]
    cases w with
    | none => simp
    | some nv =>
      by_cases hnv : nv = ""
      · subst hnv
        simp
      · have hnvb : (nv != "") = true := bne_iff_ne.mpr hnv
        have hm : ¬ ((jsSplit nv '-').head?.getD "" ∈ SUPPORTED_LANGUAGES) := by
          simpa using not_mem_of_contains_false (hw nv rfl hnv)
        simp [hnvb, hm]
  · intro hu
    simp [detectLanguage, detectBody, hu]
  · intro u hu hv hs
    simp [detectLanguage, detectBody, hu, hv, hs]
  · intro u v hu hv hs hsv hn
    simp [detectLanguage, detectBody, hu, hv, hs, hsv, hn]

/-- C4 amended witness: the priority scenario of the spec, a URL value fr
beating a stored es and a browser de. -/
theorem detectLanguage_priority_witness :
    detectLanguage ⟨.ok (some "fr"), .ok (some "es"), .ok (some "de")⟩ = "fr" :=
  (detectLanguage_priority ⟨.ok (some "fr"), .ok (some "es"), .ok (some "de")⟩).1
    "fr" rfl (by decide)

/-- C7: a locale outside the supported set makes changeLanguage return at
once, leaving the whole engine state unchanged (active locale, persisted
value, document language attribute, dictionaries, document) and notifying
no subscriber. -/
theorem changeLanguage_unsupported_noop
    (fetchResult : String → Option Json) (ph : String → List DomNode)
    (pj : String → Option (List (String × String))) (storageOk : Bool)
    (st : EngineState) (lang : String)
    (h : SUPPORTED_LANGUAGES.contains lang = false) :
    changeLanguage fetchResult ph pj storageOk st lang = (st, []) := by
  unfold changeLanguage
  rw [h]
  rfl

/-- C7 witness: the theorem applied to the unsupported code de. -/
theorem changeLanguage_unsupported_noop_witness :
    changeLanguage wFetch phEmpty pjNone true wEngine "de" = (wEngine, []) :=
  changeLanguage_unsupported_noop wFetch phEmpty pjNone true wEngine "de" rfl

theorem notifyObservers_eq_map (obs : List (String → Except Unit Unit)) (lang : String) :
    notifyObservers obs lang = obs.map (fun cb =>
      match cb lang with
      | .ok _ => ⟨lang, false⟩
      | .error _ => ⟨lang, true⟩) := by
  induction obs with
  | nil => rfl
  | cons cb rest ih => simp [notifyObservers, ih]

/-- C8: a successful locale change produces exactly one subscriber
invocation per registered subscriber, in registration order, each with
the new locale code as argument: the trace is the elementwise image of
the observer list, so a raising subscriber (a false trace entry is an ok
callback, a true one a raising callback) never shortens or reorders the
rest of the trace. -/
theorem changeLanguage_notifies_in_order
    (fetchResult : String → Option Json) (ph : String → List DomNode)
    (pj : String → Option (List (String × String))) (storageOk : Bool)
    (st : EngineState) (lang : String)
    (h : SUPPORTED_LANGUAGES.contains lang = true) :
    (changeLanguage fetchResult ph pj storageOk st lang).2 =
      st.observers.map (fun cb =>
        match cb lang with
        | .ok _ => ⟨lang, false⟩
        | .error _ => ⟨lang, true⟩) ∧
    (changeLanguage fetchResult ph pj storageOk st lang).2.length =
      st.observers.length ∧
    (∀ ev ∈ (changeLanguage fetchResult ph pj storageOk st lang).2, ev.arg = lang) := by
  have htr : (changeLanguage fetchResult ph pj storageOk st lang).2 =
      notifyObservers st.observers lang := by
    unfold changeLanguage
    rw [h]
    cases storageOk <;> rfl
  rw [htr, notifyObservers_eq_map]
  refine ⟨rfl, by simp, ?_⟩
  intro ev hev
  rw [List.mem_map] at hev
  obtain ⟨cb, _, hcb⟩ := hev
  cases hval : cb lang <;> rw [hval] at hcb <;> exact hcb ▸ rfl

/-- C8 witness: the theorem applied to a subscriber list whose middle
callback raises; all three subscribers are still invoked, in order. -/
theorem changeLanguage_notifies_in_order_witness :
    (changeLanguage wFetch phEmpty pjNone true wEngine "fr").2 =
      [⟨"fr", false⟩, ⟨"fr", true⟩, ⟨"fr", false⟩] := by
  rw [(changeLanguage_notifies_in_order wFetch phEmpty pjNone true wEngine "fr" rfl).1]
  rfl

theorem detectBody_valid (env : DetectEnv) (l : String)
    (h : detectBody env = .ok (some l)) : l ∈ SUPPORTED_LANGUAGES := by
  rcases env with ⟨u, sv, nl⟩
  unfold detectBody at h
  cases u with
  | error e => simp at h
  | ok uo =>
    simp only at h
    by_cases hu : validSignal uo = true
    · rw [if_pos hu] at h
      obtain ⟨ul, rfl⟩ : ∃ ul, uo = some ul := by
        cases uo with
        | none => simp [validSignal] at hu
        | some x => exact ⟨x, rfl⟩
      obtain rfl : ul = l := by
        injection h with h2
        injection h2
      unfold validSignal at hu
      exact mem_of_contains ((Bool.and_eq_true _ _).mp hu).2
    · rw [if_neg hu] at h
      cases sv with
      | error e => simp at h
      | ok so =>
        simp only at h
        by_cases hs : validSignal so = true
        · rw [if_pos hs] at h
          obtain ⟨sl, rfl⟩ : ∃ sl, so = some sl := by
            cases so with
            | none => simp [validSignal] at hs
            | some x => exact ⟨x, rfl⟩
          obtain rfl : sl = l := by
            injection h with h2
            injection h2
          unfold validSignal at hs
          exact mem_of_contains ((Bool.and_eq_true _ _).mp hs).2
        · rw [if_neg hs] at h
          cases nl with
          | error e => simp at h
          | ok no =>
            simp only at h
            cases no with
            | none => simp at h
            | some nv =>
              dsimp only at h
              by_cases hnv : (nv != "") = true
              · rw [if_pos hnv] at h
                by_cases hc : SUPPORTED_LANGUAGES.contains ((jsSplit nv '-').headD "") = true
                · rw [if_pos hc] at h
                  obtain rfl : (jsSplit nv '-').headD "" = l := by
                    injection h with h2
                    injection h2
                  exact mem_of_contains hc
                · rw [if_neg hc] at h
                  simp at h
              · rw [if_neg hnv] at h
                simp at h

/-- C9: the active locale always lies in the fixed supported set: every
result of detectLanguage is supported (each source is validated and the
default is supported), so the constructor establishes the invariant, and
changeLanguage preserves it, either switching to a validated code or
leaving the state untouched. -/
theorem currentLang_supported_invariant :
    (∀ env : DetectEnv, detectLanguage env ∈ SUPPORTED_LANGUAGES) ∧
    (∀ (fetchResult : String → Option Json) (ph : String → List DomNode)
      (pj : String → Option (List (String × String))) (storageOk : Bool)
      (st : EngineState) (lang : String),
      st.currentLang ∈ SUPPORTED_LANGUAGES →
      (changeLanguage fetchResult ph pj storageOk st lang).1.currentLang ∈
        SUPPORTED_LANGUAGES) := by
  constructor
  · intro env
    unfold detectLanguage
    cases hb : detectBody env with
    | error e => exact (by decide : DEFAULT_LANGUAGE ∈ SUPPORTED_LANGUAGES)
    | ok o =>
      cases o with
      | none => exact (by decide : DEFAULT_LANGUAGE ∈ SUPPORTED_LANGUAGES)
      | some l => exact detectBody_valid env l hb
  · intro fetchResult ph pj storageOk st lang hcur
    by_cases hc : SUPPORTED_LANGUAGES.contains lang = true
    · have hm := mem_of_contains hc
      simp only [changeLanguage, hc, if_true]
      cases storageOk <;> simpa using hm
    · rw [changeLanguage_unsupported_noop fetchResult ph pj storageOk st lang
        (Bool.eq_false_iff.mpr hc)]
      exact hcur

/-- C9 witness: the invariant applied at a concrete state and the
supported switch target pt. -/
theorem currentLang_supported_invariant_witness :
    (changeLanguage wFetch phEmpty pjNone true wEngine "pt").1.currentLang ∈
      SUPPORTED_LANGUAGES :=
  currentLang_supported_invariant.2 wFetch phEmpty pjNone true wEngine "pt" (by decide)

theorem jsOr_none (b : Json) : jsOr none b = b := rfl

theorem loadTranslations_default_eq (fetchResult : String → Option Json) (st : Store) :
    loadTranslations fetchResult st DEFAULT_LANGUAGE = loadTranslationsDefault fetchResult st := rfl

theorem storeGetTruthy_some {st : Store} {l : String} {d : Json}
    (h : storeGetTruthy st l = some d) : st l = some d ∧ jsTruthy d = true := by
  unfold storeGetTruthy at h
  split at h
  next d0 heq =>
    split at h
    next ht =>
      obtain rfl : d0 = d := by injection h
      exact ⟨heq, ht⟩
    next ht => cases h
  next heq => cases h

theorem getTranslation_unloaded_agrees
    (store : Store) (cur L : String) (hL : L ≠ "") (hnone : store L = none)
    (key : Option String) :
    getTranslation ⟨cur, store⟩ key (some L) =
      getTranslation ⟨cur, store⟩ key (some DEFAULT_LANGUAGE) := by
  by_cases hLD : L = DEFAULT_LANGUAGE
  · rw [hLD]
  · cases key with
    | none => rfl
    | some k =>
      by_cases hk : k = ""
      · subst hk
        rfl
      · have hkb : (k == "") = false := beq_eq_false_iff_ne.mpr hk
        have hLb : (L == "") = false := beq_eq_false_iff_ne.mpr hL
        have hLDb : (L != DEFAULT_LANGUAGE) = true := bne_iff_ne.mpr hLD
        have e1 : (DEFAULT_LANGUAGE == "") = false := rfl
        have e2 : (DEFAULT_LANGUAGE != DEFAULT_LANGUAGE) = false := rfl
        have e3 : ¬ (DEFAULT_LANGUAGE = "") := by decide
        cases hval : jsWalk (jsOr (store DEFAULT_LANGUAGE) (.obj [])) (jsSplit k '.') with
        | none =>
          simp [getTranslation, jsTargetLang, hkb, hLb, hLDb, hnone, jsOr_none,
            jsOr_absorb, e1, e2, e3, hval]
        | some v =>
          simp [getTranslation, jsTargetLang, hkb, hLb, hLDb, hnone, jsOr_none,
            jsOr_absorb, e1, e2, e3, hval]

/-- C3: loadTranslations is memoized per locale: a stored truthy
dictionary is returned as is, with no fetch and no state change, for
every fetch oracle. A failed fetch of an unloaded non-default locale
makes loadTranslations behave exactly as a load of the default locale
(the same resulting store and resolved dictionary), leaves the failed
locale unstored, and makes every later getTranslation lookup under the
failed locale agree with a lookup under the default locale. When the
default load fails too and nothing truthy is stored for it, the resolved
dictionary is the empty object. The embedding is a total function, which
reflects that the promise of the source never rejects to the caller. -/
theorem loadTranslations_memo_fallback_empty
    (fetchResult : String → Option Json) (st : Store) (lang : String) :
    (∀ d, storeGetTruthy st lang = some d →
      loadTranslations fetchResult st lang = (st, d)) ∧
    (lang ≠ DEFAULT_LANGUAGE → lang ≠ "" → st lang = none → fetchResult lang = none →
      (loadTranslations fetchResult st lang = loadTranslations fetchResult st DEFAULT_LANGUAGE ∧
       (loadTranslations fetchResult st lang).1 lang = none ∧
       (∀ (cur : String) (key : Option String),
         getTranslation ⟨cur, (loadTranslations fetchResult st lang).1⟩ key (some lang) =
           getTranslation ⟨cur, (loadTranslations fetchResult st lang).1⟩ key
             (some DEFAULT_LANGUAGE)))) ∧
    (storeGetTruthy st lang = none → fetchResult lang = none →
      storeGetTruthy st DEFAULT_LANGUAGE = none → fetchResult DEFAULT_LANGUAGE = none →
      loadTranslations fetchResult st lang = (st, .obj [])) := by
  refine ⟨?_, ?_, ?_⟩
  · intro d hd
    unfold loadTranslations
    rw [hd]
  · intro h1 h2 h3 h4
    have hsg : storeGetTruthy st lang = none := by simp [storeGetTruthy, h3]
    have h1b : (lang != DEFAULT_LANGUAGE) = true := bne_iff_ne.mpr h1
    have heq : loadTranslations fetchResult st lang =
        loadTranslations fetchResult st DEFAULT_LANGUAGE := by
      rw [loadTranslations_default_eq]
      unfold loadTranslations
      rw [hsg, h4]
      cases hD : storeGetTruthy st DEFAULT_LANGUAGE with
      | none => simp [h1b, hD]
      | some dD =>
        simp only [h1b, hD, Option.isNone_some, Bool.and_false, Bool.false_eq_true,
          if_false]
        unfold loadTranslationsDefault
        rw [hD]
        obtain ⟨hsd, htd⟩ := storeGetTruthy_some hD
        simp [jsOr, hsd, htd]
    have hstore : (loadTranslations fetchResult st lang).1 lang = none := by
      rw [heq, loadTranslations_default_eq]
      unfold loadTranslationsDefault
      cases hD : storeGetTruthy st DEFAULT_LANGUAGE with
      | some d => exact h3
      | none =>
        cases hf : fetchResult DEFAULT_LANGUAGE with
        | none => exact h3
        | some d =>
          have hne : (lang == DEFAULT_LANGUAGE) = false := beq_eq_false_iff_ne.mpr h1
          simp [Store.set, hne, h3]
    exact ⟨heq, hstore, fun cur key =>
      getTranslation_unloaded_agrees (loadTranslations fetchResult st lang).1 cur lang
        h2 hstore key⟩
  · intro hsg hf hsgD hfD
    unfold loadTranslations
    rw [hsg, hf, hsgD]
    by_cases hLD : lang = DEFAULT_LANGUAGE
    · subst hLD
      simp [jsOr_of_untruthy st DEFAULT_LANGUAGE (Json.obj []) hsgD]
    · have h1b : (lang != DEFAULT_LANGUAGE) = true := bne_iff_ne.mpr hLD
      simp only [h1b, Option.isNone_none, Bool.and_true, if_true]
      unfold loadTranslationsDefault
      rw [hsgD, hfD, jsOr_of_untruthy st DEFAULT_LANGUAGE (Json.obj []) hsgD]

/-- C3 witness: the theorem applied to an unloaded locale fr whose fetch
fails while the default locale file resolves: the load behaves as a
default-language load, stores nothing under fr, and a later lookup under
fr equals the same lookup under the default locale. -/
theorem loadTranslations_memo_fallback_empty_witness :
    loadTranslations wFetch Store.empty "fr" = loadTranslations wFetch Store.empty "es" ∧
    getTranslation ⟨"fr", (loadTranslations wFetch Store.empty "fr").1⟩ (some "a.b")
        (some "fr") =
      getTranslation ⟨"fr", (loadTranslations wFetch Store.empty "fr").1⟩ (some "a.b")
        (some "es") := by
  have h := (loadTranslations_memo_fallback_empty wFetch Store.empty "fr").2.1
    (by decide) (by decide) rfl rfl
  exact ⟨h.1, h.2.2 "fr" (some "a.b")⟩

theorem replaceFirstText_none_all (cs : List DomNode) (t : String)
    (h : replaceFirstText cs t = none) : ∀ n ∈ cs, hasLoopText n = false := by
  induction cs with
  | nil =>
    intro n hn
    cases hn
  | cons n rest ih =>
    intro m hm
    unfold replaceFirstText at h
    cases n with
    | text c =>
      dsimp only at h
      by_cases hc : (jsTrim c != "") = true
      · rw [if_pos hc] at h
        cases h
      · rw [if_neg hc] at h
        cases hr : replaceFirstText rest t with
        | some r2 =>
          rw [hr] at h
          cases h
        | none =>
          cases hm with
          | head => simpa [hasLoopText] using Bool.eq_false_iff.mpr hc
          | tail _ hm2 => exact ih hr m hm2
    | elem i k =>
      dsimp only at h
      cases hr : replaceFirstText rest t with
      | some r2 =>
        rw [hr] at h
        cases h
      | none =>
        cases hm with
        | head => rfl
        | tail _ hm2 => exact ih hr m hm2

theorem replaceFirstText_some_shape (cs : List DomNode) (t : String) (cs2 : List DomNode)
    (h : replaceFirstText cs t = some cs2) :
    ∃ pre c post, cs = pre ++ DomNode.text c :: post ∧ (jsTrim c != "") = true ∧
      (∀ n ∈ pre, hasLoopText n = false) ∧ cs2 = pre ++ DomNode.text t :: post := by
  induction cs generalizing cs2 with
  | nil => cases h
  | cons n rest ih =>
    unfold replaceFirstText at h
    cases n with
    | text c =>
      dsimp only at h
      by_cases hc : (jsTrim c != "") = true
      · rw [if_pos hc] at h
        obtain rfl : DomNode.text t :: rest = cs2 := by injection h
        refine ⟨[], c, rest, rfl, hc, ?_, rfl⟩
        intro m hm
        cases hm
      · rw [if_neg hc] at h
        cases hr : replaceFirstText rest t with
        | none =>
          rw [hr] at h
          cases h
        | some r2 =>
          rw [hr] at h
          obtain rfl : DomNode.text c :: r2 = cs2 := by injection h
          obtain ⟨pre, c1, post, hcs, hc1, hpre, hr2⟩ := ih r2 hr
          refine ⟨DomNode.text c :: pre, c1, post, by rw [hcs]; rfl, hc1, ?_, by rw [hr2]; rfl⟩
          intro m hm
          cases hm with
          | head => simpa [hasLoopText] using Bool.eq_false_iff.mpr hc
          | tail _ hm2 => exact hpre m hm2
    | elem i k =>
      dsimp only at h
      cases hr : replaceFirstText rest t with
      | none =>
        rw [hr] at h
        cases h
      | some r2 =>
        rw [hr] at h
        obtain rfl : DomNode.elem i k :: r2 = cs2 := by injection h
        obtain ⟨pre, c1, post, hcs, hc1, hpre, hr2⟩ := ih r2 hr
        refine ⟨DomNode.elem i k :: pre, c1, post, by rw [hcs]; rfl, hc1, ?_, by rw [hr2]; rfl⟩
        intro m hm
        cases hm with
        | head => rfl
        | tail _ hm2 => exact hpre m hm2

theorem updateElement_generic (info : ElemInfo) (cs : List DomNode) (t : String)
    (hkind : info.kind = ElemKind.generic) :
    updateElement (.elem info cs) t =
      if 0 < (cs.filter isElemNode).length then
        match replaceFirstText cs t with
        | some cs2 => DomNode.elem info cs2
        | none => DomNode.elem info (DomNode.text t :: cs)
      else
        if (textContentList cs != t) = true then DomNode.elem info (setTextContent t)
        else DomNode.elem info cs := by
  obtain ⟨k, v, a⟩ := info
  cases hkind
  rfl

/-- C5: updateElement on a plain element that has element children leaves
the element children exactly as they were, in order and unmodified, and
touches only a direct text node: the first direct text child with
non-blank content receives the translation, or, when no such child
exists, a fresh text node carrying the translation is inserted as the
first child. -/
theorem updateElement_preserves_child_elements
    (info : ElemInfo) (cs : List DomNode) (t : String)
    (hkind : info.kind = ElemKind.generic)
    (hch : 0 < (cs.filter isElemNode).length) :
    ∃ cs2, updateElement (.elem info cs) t = .elem info cs2 ∧
      cs2.filter isElemNode = cs.filter isElemNode ∧
      ((∃ pre c post, cs = pre ++ DomNode.text c :: post ∧ (jsTrim c != "") = true ∧
          (∀ n ∈ pre, hasLoopText n = false) ∧ cs2 = pre ++ DomNode.text t :: post) ∨
       ((∀ n ∈ cs, hasLoopText n = false) ∧ cs2 = DomNode.text t :: cs)) := by
  rw [updateElement_generic info cs t hkind, if_pos hch]
  cases hrep : replaceFirstText cs t with
  | some cs2 =>
    refine ⟨cs2, rfl, ?_, Or.inl (replaceFirstText_some_shape cs t cs2 hrep)⟩
    obtain ⟨pre, c, post, hcs, _, _, hcs2⟩ := replaceFirstText_some_shape cs t cs2 hrep
    rw [hcs, hcs2]
    simp [List.filter_append, isElemNode]
  | none =>
    exact ⟨DomNode.text t :: cs, rfl, by simp [isElemNode],
      Or.inr ⟨replaceFirstText_none_all cs t hrep, rfl⟩⟩

/-- C5 witness: the theorem applied to an element with an icon child and
a text child. -/
theorem updateElement_preserves_child_elements_witness :
    ∃ cs2, updateElement (.elem wInfoG wKids) "Bonjour" = .elem wInfoG cs2 ∧
      cs2.filter isElemNode = wKids.filter isElemNode ∧
      ((∃ pre c post, wKids = pre ++ DomNode.text c :: post ∧ (jsTrim c != "") = true ∧
          (∀ n ∈ pre, hasLoopText n = false) ∧ cs2 = pre ++ DomNode.text "Bonjour" :: post) ∨
       ((∀ n ∈ wKids, hasLoopText n = false) ∧ cs2 = DomNode.text "Bonjour" :: wKids)) :=
  updateElement_preserves_child_elements wInfoG wKids "Bonjour" rfl (by decide)

theorem textPassList_eq_map (tr : String → String) (l : List DomNode) :
    textPassList tr l = l.map (textPassNode tr) := by
  induction l with
  | nil => rfl
  | cons n ns ih => simp [textPassList, ih]

theorem htmlPassList_eq_map (tr : String → String) (ph : String → List DomNode)
    (l : List DomNode) : htmlPassList tr ph l = l.map (htmlPassNode tr ph) := by
  induction l with
  | nil => rfl
  | cons n ns ih => simp [htmlPassList, ih]

theorem attrPassList_eq_map (tr : String → String)
    (pj : String → Option (List (String × String))) (l : List DomNode) :
    attrPassList tr pj l = l.map (attrPassNode tr pj) := by
  induction l with
  | nil => rfl
  | cons n ns ih => simp [attrPassList, ih]

theorem fullPassList_eq_map (tr : String → String) (ph : String → List DomNode)
    (pj : String → Option (List (String × String))) (l : List DomNode) :
    fullPassList tr ph pj l = l.map (fullPassNode tr ph pj) := by
  unfold fullPassList
  rw [textPassList_eq_map, htmlPassList_eq_map, attrPassList_eq_map, List.map_map,
    List.map_map]
  rfl

theorem updateElement_shape (info : ElemInfo) (cs : List DomNode) (t : String) :
    ∃ i2 cs2, updateElement (.elem info cs) t = .elem i2 cs2 ∧
      i2.kind = info.kind ∧ i2.attrs "data-i18n" = info.attrs "data-i18n" ∧
      i2.attrs "data-i18n-html" = info.attrs "data-i18n-html" ∧
      i2.attrs "data-i18n-attr" = info.attrs "data-i18n-attr" ∧
      i2.attrs "type" = info.attrs "type" := by
  obtain ⟨k, v, a⟩ := info
  cases k with
  | input =>
    dsimp [updateElement]
    split
    · exact ⟨_, _, rfl, rfl, rfl, rfl, rfl, rfl⟩
    · exact ⟨_, _, rfl, rfl, by simp [setAttr], by simp [setAttr], by simp [setAttr],
        by simp [setAttr]⟩
  | textarea =>
    dsimp [updateElement]
    split
    · exact ⟨_, _, rfl, rfl, rfl, rfl, rfl, rfl⟩
    · exact ⟨_, _, rfl, rfl, by simp [setAttr], by simp [setAttr], by simp [setAttr],
        by simp [setAttr]⟩
  | option => exact ⟨_, _, rfl, rfl, rfl, rfl, rfl, rfl⟩
  | generic =>
    dsimp [updateElement]
    split
    · cases replaceFirstText cs t with
      | some cs2 => exact ⟨_, _, rfl, rfl, rfl, rfl, rfl, rfl⟩
      | none => exact ⟨_, _, rfl, rfl, rfl, rfl, rfl, rfl⟩
    · split
      · exact ⟨_, _, rfl, rfl, rfl, rfl, rfl, rfl⟩
      · exact ⟨_, _, rfl, rfl, rfl, rfl, rfl, rfl⟩

theorem updateIfMarked_elem (tr : String → String) (info : ElemInfo) (cs : List DomNode) :
    updateIfMarked tr (.elem info cs) =
      match info.attrs "data-i18n" with
      | some key =>
        if (key != "" && applicable tr key) = true then
          updateElement (.elem info cs) (tr key)
        else .elem info cs
      | none => .elem info cs := rfl

theorem textPassNode_elem (tr : String → String) (info : ElemInfo) (cs : List DomNode) :
    textPassNode tr (.elem info cs) = updateIfMarked tr (.elem info (textPassList tr cs)) := rfl

theorem htmlPassNode_elem (tr : String → String) (ph : String → List DomNode)
    (info : ElemInfo) (cs : List DomNode) :
    htmlPassNode tr ph (.elem info cs) =
      match info.attrs "data-i18n-html" with
      | some key =>
        if (key != "" && applicable tr key) = true then .elem info (ph (tr key))
        else .elem info (htmlPassList tr ph cs)
      | none => .elem info (htmlPassList tr ph cs) := rfl

theorem attrPassNode_elem (tr : String → String)
    (pj : String → Option (List (String × String))) (info : ElemInfo) (cs : List DomNode) :
    attrPassNode tr pj (.elem info cs) =
      .elem (attrUpdateInfo tr pj info) (attrPassList tr pj cs) := rfl

theorem updateIfMarked_shape (tr : String → String) (info : ElemInfo) (cs : List DomNode) :
    ∃ i2 cs2, updateIfMarked tr (.elem info cs) = .elem i2 cs2 ∧
      i2.kind = info.kind ∧ i2.attrs "data-i18n" = info.attrs "data-i18n" ∧
      i2.attrs "data-i18n-html" = info.attrs "data-i18n-html" ∧
      i2.attrs "data-i18n-attr" = info.attrs "data-i18n-attr" ∧
      i2.attrs "type" = info.attrs "type" := by
  rw [updateIfMarked_elem]
  cases hm : info.attrs "data-i18n" with
  | none => exact ⟨info, cs, rfl, rfl, hm, rfl, rfl, rfl⟩
  | some key =>
    dsimp only
    split
    · obtain ⟨i2, cs2, heq, h1, h2, h3, h4, h5⟩ := updateElement_shape info cs (tr key)
      exact ⟨i2, cs2, heq, h1, h2.trans hm, h3, h4, h5⟩
    · exact ⟨info, cs, rfl, rfl, hm, rfl, rfl, rfl⟩

theorem textPassNode_isElem (tr : String → String) (n : DomNode) :
    isElemNode (textPassNode tr n) = isElemNode n := by
  cases n with
  | text c => rfl
  | elem info cs =>
    obtain ⟨i2, cs2, heq, _⟩ := updateIfMarked_shape tr info (textPassList tr cs)
    rw [textPassNode_elem, heq]
    rfl

theorem htmlPassNode_isElem (tr : String → String) (ph : String → List DomNode)
    (n : DomNode) : isElemNode (htmlPassNode tr ph n) = isElemNode n := by
  cases n with
  | text c => rfl
  | elem info cs =>
    rw [htmlPassNode_elem]
    cases hm : info.attrs "data-i18n-html" with
    | none => rfl
    | some key =>
      dsimp only
      split <;> rfl

theorem attrPassNode_isElem (tr : String → String)
    (pj : String → Option (List (String × String))) (n : DomNode) :
    isElemNode (attrPassNode tr pj n) = isElemNode n := by
  cases n with
  | text c => rfl
  | elem info cs => rfl

theorem fullPassNode_isElem (tr : String → String) (ph : String → List DomNode)
    (pj : String → Option (List (String × String))) (n : DomNode) :
    isElemNode (fullPassNode tr ph pj n) = isElemNode n := by
  unfold fullPassNode
  rw [attrPassNode_isElem, htmlPassNode_isElem, textPassNode_isElem]

theorem hasLoopText_of_isElem_eq {f : DomNode → DomNode}
    (hf : ∀ n, isElemNode (f n) = isElemNode n)
    (hft : ∀ c, f (.text c) = .text c) (n : DomNode) :
    hasLoopText (f n) = hasLoopText n := by
  cases n with
  | text c => rw [hft c]
  | elem info cs =>
    have h := hf (.elem info cs)
    cases hn : f (.elem info cs) with
    | text c2 =>
      rw [hn] at h
      cases h
    | elem i2 c2 => rfl

theorem textPassNode_text (tr : String → String) (c : String) :
    textPassNode tr (.text c) = .text c := rfl

theorem htmlPassNode_text (tr : String → String) (ph : String → List DomNode) (c : String) :
    htmlPassNode tr ph (.text c) = .text c := rfl

theorem attrPassNode_text (tr : String → String)
    (pj : String → Option (List (String × String))) (c : String) :
    attrPassNode tr pj (.text c) = .text c := rfl

theorem fullPassNode_text (tr : String → String) (ph : String → List DomNode)
    (pj : String → Option (List (String × String))) (c : String) :
    fullPassNode tr ph pj (.text c) = .text c := rfl

theorem filter_isElem_map_length (f : DomNode → DomNode)
    (hf : ∀ n, isElemNode (f n) = isElemNode n) (l : List DomNode) :
    ((l.map f).filter isElemNode).length = (l.filter isElemNode).length := by
  induction l with
  | nil => rfl
  | cons n ns ih =>
    simp only [List.map_cons, List.filter_cons, hf n]
    cases isElemNode n <;> simp [ih]

theorem replaceFirstText_first (xs ys : List DomNode) (t : String)
    (hxs : ∀ n ∈ xs, hasLoopText n = false) (ht : (jsTrim t != "") = true) :
    replaceFirstText (xs ++ DomNode.text t :: ys) t = some (xs ++ DomNode.text t :: ys) := by
  induction xs with
  | nil => simp [replaceFirstText, ht]
  | cons n rest ih =>
    have hn := hxs n (List.mem_cons_self n rest)
    have hrest : ∀ m ∈ rest, hasLoopText m = false :=
      fun m hm => hxs m (List.mem_cons_of_mem n hm)
    cases n with
    | text c =>
      have hc : (jsTrim c != "") = false := by simpa [hasLoopText] using hn
      simp [replaceFirstText, hc, ih hrest]
    | elem i k => simp [replaceFirstText, ih hrest]

theorem map_fixes_all_text (f : DomNode → DomNode) (hft : ∀ c, f (.text c) = .text c)
    (l : List DomNode) (hl : ∀ n ∈ l, isElemNode n = false) : l.map f = l := by
  induction l with
  | nil => rfl
  | cons n ns ih =>
    have h0 := hl n (List.mem_cons_self n ns)
    cases n with
    | text c =>
      simp [hft c, ih (fun m hm => hl m (List.mem_cons_of_mem _ hm))]
    | elem i k => cases h0

theorem setAttr_apply (a : Attrs) (n v m : String) :
    setAttr a n v m = if m == n then some v else a m := rfl

theorem applyAttrEntries_apply (tr : String → String) (entries : List (String × String))
    (a : Attrs) (m : String) :
    applyAttrEntries tr entries a m =
      match lastWrite tr entries m with
      | some v => some v
      | none => a m := by
  induction entries generalizing a with
  | nil => rfl
  | cons e rest ih =>
    obtain ⟨n, key⟩ := e
    show applyAttrEntries tr rest (if applicable tr key then setAttr a n (tr key) else a) m =
      match lastWrite tr ((n, key) :: rest) m with
      | some v => some v
      | none => a m
    rw [ih]
    cases hlw : lastWrite tr rest m with
    | some v =>
      have : lastWrite tr ((n, key) :: rest) m = some v := by
        unfold lastWrite
        rw [hlw]
      rw [this]
    | none =>
      have hstep : lastWrite tr ((n, key) :: rest) m =
          if (m == n && applicable tr key) = true then some (tr key) else none := by
        unfold lastWrite
        rw [hlw]
      rw [hstep]
      by_cases hap : applicable tr key = true
      · rw [if_pos hap, setAttr_apply]
        by_cases hm : (m == n) = true
        · simp [hm, hap]
        · simp [hm, hap]
      · have hapf : applicable tr key = false := Bool.eq_false_iff.mpr hap
        simp [hapf]

theorem lastWrite_none_of_ne (tr : String → String) (entries : List (String × String))
    (m : String) (h : ∀ p ∈ entries, p.1 ≠ m) : lastWrite tr entries m = none := by
  induction entries with
  | nil => rfl
  | cons e rest ih =>
    obtain ⟨n, key⟩ := e
    unfold lastWrite
    rw [ih (fun p hp => h p (List.mem_cons_of_mem _ hp))]
    have hne : (m == n) = false :=
      beq_eq_false_iff_ne.mpr (Ne.symm (h (n, key) (List.mem_cons_self _ _)))
    simp [hne]

theorem applyAttrEntries_ne (tr : String → String) (entries : List (String × String))
    (a : Attrs) (m : String) (h : ∀ p ∈ entries, p.1 ≠ m) :
    applyAttrEntries tr entries a m = a m := by
  rw [applyAttrEntries_apply, lastWrite_none_of_ne tr entries m h]

theorem applyAttrEntries_twice (tr : String → String) (entries : List (String × String))
    (a : Attrs) :
    applyAttrEntries tr entries (applyAttrEntries tr entries a) =
      applyAttrEntries tr entries a := by
  funext m
  rw [applyAttrEntries_apply, applyAttrEntries_apply]
  cases hlw : lastWrite tr entries m <;> simp [hlw]

theorem applyAttrEntries_setAttr_twice (tr : String → String)
    (entries : List (String × String)) (a : Attrs) (nm p : String) :
    applyAttrEntries tr entries
        (setAttr (applyAttrEntries tr entries (setAttr a nm p)) nm p) =
      applyAttrEntries tr entries (setAttr a nm p) := by
  funext m
  rw [applyAttrEntries_apply, applyAttrEntries_apply]
  cases hlw : lastWrite tr entries m with
  | some v => rfl
  | none =>
    rw [setAttr_apply, setAttr_apply]
    by_cases hm : (m == nm) = true
    · simp [hm]
    · have hmf : (m == nm) = false := Bool.eq_false_iff.mpr hm
      simp only [hmf, Bool.false_eq_true, if_false]
      rw [applyAttrEntries_apply, hlw, setAttr_apply]
      simp [hmf]

theorem attrUpdateInfo_kind (tr : String → String)
    (pj : String → Option (List (String × String))) (info : ElemInfo) :
    (attrUpdateInfo tr pj info).kind = info.kind := by
  unfold attrUpdateInfo
  cases info.attrs "data-i18n-attr" with
  | none => rfl
  | some s =>
    dsimp only
    split
    · cases pj s <;> rfl
    · rfl

theorem attrUpdateInfo_value (tr : String → String)
    (pj : String → Option (List (String × String))) (info : ElemInfo) :
    (attrUpdateInfo tr pj info).value = info.value := by
  unfold attrUpdateInfo
  cases info.attrs "data-i18n-attr" with
  | none => rfl
  | some s =>
    dsimp only
    split
    · cases pj s <;> rfl
    · rfl

theorem attrUpdateInfo_marker (tr : String → String)
    (pj : String → Option (List (String × String)))
    (Hpj : ∀ s e, pj s = some e → safeEntries e) (info : ElemInfo) (m : String)
    (hm4 : m = "data-i18n" ∨ m = "data-i18n-html" ∨ m = "data-i18n-attr" ∨ m = "type") :
    (attrUpdateInfo tr pj info).attrs m = info.attrs m := by
  unfold attrUpdateInfo
  cases hma : info.attrs "data-i18n-attr" with
  | none => rfl
  | some s =>
    dsimp only
    split
    · cases hp : pj s with
      | none => rfl
      | some entries =>
        dsimp only
        refine applyAttrEntries_ne tr entries info.attrs m ?_
        intro p hp2
        obtain ⟨h1, h2, h3, h4⟩ := Hpj s entries hp p hp2
        rcases hm4 with h | h | h | h <;> rw [h]
        · exact h1
        · exact h2
        · exact h3
        · exact h4
    · rfl

theorem attrUpdateInfo_of_entries (tr : String → String)
    (pj : String → Option (List (String × String))) (info : ElemInfo) (s : String)
    (entries : List (String × String)) (hm : info.attrs "data-i18n-attr" = some s)
    (hs : (s != "") = true) (hp : pj s = some entries) :
    attrUpdateInfo tr pj info = { info with attrs := applyAttrEntries tr entries info.attrs } := by
  unfold attrUpdateInfo
  rw [hm]
  dsimp only
  rw [if_pos hs, hp]

theorem attrUpdateInfo_noop (tr : String → String)
    (pj : String → Option (List (String × String))) (info : ElemInfo)
    (h : info.attrs "data-i18n-attr" = none ∨ info.attrs "data-i18n-attr" = some "" ∨
      (∃ s, info.attrs "data-i18n-attr" = some s ∧ pj s = none)) :
    attrUpdateInfo tr pj info = info := by
  unfold attrUpdateInfo
  rcases h with h | h | ⟨s, h, hp⟩
  · rw [h]
  · rw [h]
    rfl
  · rw [h]
    dsimp only
    split
    · rw [hp]
    · rfl

theorem setAttr_marker (a : Attrs) (p m : String)
    (hm4 : m = "data-i18n" ∨ m = "data-i18n-html" ∨ m = "data-i18n-attr" ∨ m = "type") :
    setAttr a "placeholder" p m = a m := by
  rw [setAttr_apply]
  rcases hm4 with h | h | h | h <;> subst h <;> rfl

theorem elemType_setAttr_placeholder (info : ElemInfo) (p : String) :
    elemType { info with attrs := setAttr info.attrs "placeholder" p } = elemType info := by
  unfold elemType
  cases info.kind <;> simp [setAttr_marker info.attrs p "type" (by tauto)]

theorem elemType_attrUpdateInfo (tr : String → String)
    (pj : String → Option (List (String × String)))
    (Hpj : ∀ s e, pj s = some e → safeEntries e) (info : ElemInfo) :
    elemType (attrUpdateInfo tr pj info) = elemType info := by
  unfold elemType
  rw [attrUpdateInfo_kind, attrUpdateInfo_marker tr pj Hpj info "type" (by tauto)]

theorem setAttr_setAttr_same (a : Attrs) (n v : String) :
    setAttr (setAttr a n v) n v = setAttr a n v := by
  funext m
  by_cases hm : (m == n) = true <;> simp [setAttr_apply, hm]

theorem textPassNode_not_applicable (tr : String → String) (info : ElemInfo)
    (cs : List DomNode)
    (h : info.attrs "data-i18n" = none ∨
      ∃ key, info.attrs "data-i18n" = some key ∧ (key != "" && applicable tr key) = false) :
    textPassNode tr (.elem info cs) = .elem info (textPassList tr cs) := by
  rw [textPassNode_elem, updateIfMarked_elem]
  rcases h with h | ⟨key, h, hg⟩
  · rw [h]
  · rw [h]
    dsimp only
    rw [if_neg (by simp [hg])]

theorem textPassNode_applicable (tr : String → String) (info : ElemInfo)
    (cs : List DomNode) (key : String) (h : info.attrs "data-i18n" = some key)
    (hg : (key != "" && applicable tr key) = true) :
    textPassNode tr (.elem info cs) =
      updateElement (.elem info (textPassList tr cs)) (tr key) := by
  rw [textPassNode_elem, updateIfMarked_elem, h]
  dsimp only
  rw [if_pos hg]

theorem htmlPassNode_applicable (tr : String → String) (ph : String → List DomNode)
    (info : ElemInfo) (cs : List DomNode) (key : String)
    (h : info.attrs "data-i18n-html" = some key)
    (hg : (key != "" && applicable tr key) = true) :
    htmlPassNode tr ph (.elem info cs) = .elem info (ph (tr key)) := by
  rw [htmlPassNode_elem, h]
  dsimp only
  rw [if_pos hg]

theorem htmlPassNode_not_applicable (tr : String → String) (ph : String → List DomNode)
    (info : ElemInfo) (cs : List DomNode)
    (h : info.attrs "data-i18n-html" = none ∨
      ∃ key, info.attrs "data-i18n-html" = some key ∧
        (key != "" && applicable tr key) = false) :
    htmlPassNode tr ph (.elem info cs) = .elem info (htmlPassList tr ph cs) := by
  rw [htmlPassNode_elem]
  rcases h with h | ⟨key, h, hg⟩
  · rw [h]
  · rw [h]
    dsimp only
    rw [if_neg (by simp [hg])]

theorem updateElement_control_value (info : ElemInfo) (cs : List DomNode) (t : String)
    (hk : info.kind = ElemKind.input ∨ info.kind = ElemKind.textarea)
    (ht : (elemType info == "submit" || elemType info == "button") = true) :
    updateElement (.elem info cs) t = .elem { info with value := t } cs := by
  obtain ⟨k, v, a⟩ := info
  rcases hk with hk | hk <;> cases hk <;>
    · dsimp [updateElement]
      rw [if_pos ht]

theorem updateElement_control_placeholder (info : ElemInfo) (cs : List DomNode) (t : String)
    (hk : info.kind = ElemKind.input ∨ info.kind = ElemKind.textarea)
    (ht : (elemType info == "submit" || elemType info == "button") = false) :
    updateElement (.elem info cs) t =
      .elem { info with attrs := setAttr info.attrs "placeholder" t } cs := by
  obtain ⟨k, v, a⟩ := info
  rcases hk with hk | hk <;> cases hk <;>
    · dsimp [updateElement]
      rw [if_neg (by simp [ht])]

theorem updateElement_option_kind (info : ElemInfo) (cs : List DomNode) (t : String)
    (hk : info.kind = ElemKind.option) :
    updateElement (.elem info cs) t = .elem info (setTextContent t) := by
  obtain ⟨k, v, a⟩ := info
  cases hk
  rfl

theorem map_eq_self_of_mem {α : Type} (f : α → α) (l : List α)
    (h : ∀ x ∈ l, f x = x) : l.map f = l := by
  induction l with
  | nil => rfl
  | cons n ns ih =>
    rw [List.map_cons, h n (List.mem_cons_self _ _),
      ih (fun x hx => h x (List.mem_cons_of_mem _ hx))]

theorem attrUpdateInfo_idem (tr : String → String)
    (pj : String → Option (List (String × String)))
    (Hpj : ∀ s e, pj s = some e → safeEntries e) (info : ElemInfo) :
    attrUpdateInfo tr pj (attrUpdateInfo tr pj info) = attrUpdateInfo tr pj info := by
  cases hma : info.attrs "data-i18n-attr" with
  | none =>
    rw [attrUpdateInfo_noop tr pj info (Or.inl hma), attrUpdateInfo_noop tr pj info (Or.inl hma)]
  | some s =>
    by_cases hs : (s != "") = true
    · cases hp : pj s with
      | none =>
        rw [attrUpdateInfo_noop tr pj info (Or.inr (Or.inr ⟨s, hma, hp⟩)),
          attrUpdateInfo_noop tr pj info (Or.inr (Or.inr ⟨s, hma, hp⟩))]
      | some entries =>
        rw [attrUpdateInfo_of_entries tr pj info s entries hma hs hp]
        have hma2 : ({ info with attrs := applyAttrEntries tr entries info.attrs } :
            ElemInfo).attrs "data-i18n-attr" = some s := by
          dsimp only
          rw [applyAttrEntries_ne tr entries info.attrs _
            (fun p hp2 => (Hpj s entries hp p hp2).2.2.1)]
          exact hma
        rw [attrUpdateInfo_of_entries tr pj _ s entries hma2 hs hp]
        dsimp only
        rw [applyAttrEntries_twice]
    · have hs2 : s = "" := by simpa using hs
      subst hs2
      rw [attrUpdateInfo_noop tr pj info (Or.inr (Or.inl hma)),
        attrUpdateInfo_noop tr pj info (Or.inr (Or.inl hma))]

theorem attrUpdateInfo_value_cycle (tr : String → String)
    (pj : String → Option (List (String × String)))
    (Hpj : ∀ s e, pj s = some e → safeEntries e) (info : ElemInfo) (v : String) :
    attrUpdateInfo tr pj { attrUpdateInfo tr pj { info with value := v } with value := v } =
      attrUpdateInfo tr pj { info with value := v } := by
  have h1 : (attrUpdateInfo tr pj { info with value := v }).value = v := by
    rw [attrUpdateInfo_value]
  have h2 : ({ attrUpdateInfo tr pj { info with value := v } with value := v } : ElemInfo) =
      attrUpdateInfo tr pj { info with value := v } := by
    generalize attrUpdateInfo tr pj { info with value := v } = X at h1 ⊢
    obtain ⟨xk, xv, xa⟩ := X
    dsimp at h1
    rw [h1]
  rw [h2, attrUpdateInfo_idem tr pj Hpj]

theorem attrUpdateInfo_placeholder_cycle (tr : String → String)
    (pj : String → Option (List (String × String)))
    (Hpj : ∀ s e, pj s = some e → safeEntries e) (info : ElemInfo) (p : String) :
    attrUpdateInfo tr pj
      { attrUpdateInfo tr pj { info with attrs := setAttr info.attrs "placeholder" p } with
        attrs := setAttr (attrUpdateInfo tr pj
          { info with attrs := setAttr info.attrs "placeholder" p }).attrs "placeholder" p } =
      attrUpdateInfo tr pj { info with attrs := setAttr info.attrs "placeholder" p } := by
  obtain ⟨k0, v0, a0⟩ := info
  dsimp only
  set W := setAttr a0 "placeholder" p with hWdef
  have hW : W "data-i18n-attr" = a0 "data-i18n-attr" := setAttr_marker a0 p _ (by tauto)
  cases hma : a0 "data-i18n-attr" with
  | none =>
    rw [attrUpdateInfo_noop tr pj ⟨k0, v0, W⟩ (Or.inl (hW.trans hma))]
    dsimp only
    have hm2 : (setAttr W "placeholder" p) "data-i18n-attr" = none :=
      (setAttr_marker W p _ (by tauto)).trans (hW.trans hma)
    rw [attrUpdateInfo_noop tr pj ⟨k0, v0, setAttr W "placeholder" p⟩ (Or.inl hm2)]
    rw [hWdef, setAttr_setAttr_same]
  | some s =>
    by_cases hs : (s != "") = true
    · cases hp : pj s with
      | none =>
        rw [attrUpdateInfo_noop tr pj ⟨k0, v0, W⟩
          (Or.inr (Or.inr ⟨s, hW.trans hma, hp⟩))]
        dsimp only
        have hm2 : (setAttr W "placeholder" p) "data-i18n-attr" = some s :=
          (setAttr_marker W p _ (by tauto)).trans (hW.trans hma)
        rw [attrUpdateInfo_noop tr pj ⟨k0, v0, setAttr W "placeholder" p⟩
          (Or.inr (Or.inr ⟨s, hm2, hp⟩))]
        rw [hWdef, setAttr_setAttr_same]
      | some entries =>
        rw [attrUpdateInfo_of_entries tr pj ⟨k0, v0, W⟩ s entries (hW.trans hma) hs hp]
        dsimp only
        have hm2 : (setAttr (applyAttrEntries tr entries W) "placeholder" p)
            "data-i18n-attr" = some s := by
          rw [setAttr_marker _ p _ (by tauto)]
          rw [applyAttrEntries_ne tr entries _ _
            (fun q hq => (Hpj s entries hp q hq).2.2.1)]
          exact hW.trans hma
        rw [attrUpdateInfo_of_entries tr pj
          ⟨k0, v0, setAttr (applyAttrEntries tr entries W) "placeholder" p⟩
          s entries hm2 hs hp]
        dsimp only
        rw [hWdef, applyAttrEntries_setAttr_twice]
    · have hs2 : s = "" := by simpa using hs
      subst hs2
      rw [attrUpdateInfo_noop tr pj ⟨k0, v0, W⟩ (Or.inr (Or.inl (hW.trans hma)))]
      dsimp only
      have hm2 : (setAttr W "placeholder" p) "data-i18n-attr" = some "" :=
        (setAttr_marker W p _ (by tauto)).trans (hW.trans hma)
      rw [attrUpdateInfo_noop tr pj ⟨k0, v0, setAttr W "placeholder" p⟩
        (Or.inr (Or.inl hm2))]
      rw [hWdef, setAttr_setAttr_same]

theorem textPassNode_hasLoopText (tr : String → String) (n : DomNode) :
    hasLoopText (textPassNode tr n) = hasLoopText n :=
  hasLoopText_of_isElem_eq (textPassNode_isElem tr) (textPassNode_text tr) n

theorem htmlPassNode_hasLoopText (tr : String → String) (ph : String → List DomNode)
    (n : DomNode) : hasLoopText (htmlPassNode tr ph n) = hasLoopText n :=
  hasLoopText_of_isElem_eq (htmlPassNode_isElem tr ph) (htmlPassNode_text tr ph) n

theorem attrPassNode_hasLoopText (tr : String → String)
    (pj : String → Option (List (String × String))) (n : DomNode) :
    hasLoopText (attrPassNode tr pj n) = hasLoopText n :=
  hasLoopText_of_isElem_eq (attrPassNode_isElem tr pj) (attrPassNode_text tr pj) n

theorem all_not_of_filter_nil {l : List DomNode} (h : l.filter isElemNode = []) :
    ∀ n ∈ l, isElemNode n = false := by
  intro n hn
  cases he : isElemNode n with
  | false => rfl
  | true =>
    have hmem : n ∈ l.filter isElemNode := List.mem_filter.mpr ⟨hn, he⟩
    rw [h] at hmem
    cases hmem

theorem filter_isElem_all_text (l : List DomNode) (h : ∀ n ∈ l, isElemNode n = false) :
    l.filter isElemNode = [] := by
  induction l with
  | nil => rfl
  | cons n ns ih =>
    rw [List.filter_cons, h n (List.mem_cons_self _ _)]
    exact ih (fun m hm => h m (List.mem_cons_of_mem _ hm))

theorem textContentList_single (t : String) : textContentList [DomNode.text t] = t := by
  show t ++ "" = t
  exact String.append_empty t

theorem setTextContent_ne (t : String) (h : (t == "") = false) :
    setTextContent t = [DomNode.text t] := by
  unfold setTextContent
  rw [h]
  rfl

theorem updateElement_generic_shape (info : ElemInfo) (cs : List DomNode) (t : String)
    (hkind : info.kind = ElemKind.generic) :
    ∃ cs2, updateElement (.elem info cs) t = .elem info cs2 := by
  rw [updateElement_generic info cs t hkind]
  split
  · cases replaceFirstText cs t with
    | some cs2 => exact ⟨cs2, rfl⟩
    | none => exact ⟨_, rfl⟩
  · split
    · exact ⟨_, rfl⟩
    · exact ⟨_, rfl⟩

theorem elemType_value (info : ElemInfo) (v : String) :
    elemType { info with value := v } = elemType info := rfl

theorem fullPassList_idem_of (tr : String → String) (ph : String → List DomNode)
    (pj : String → Option (List (String × String))) (l : List DomNode)
    (h : ∀ m ∈ l, fullPassNode tr ph pj (fullPassNode tr ph pj m) = fullPassNode tr ph pj m) :
    fullPassList tr ph pj (fullPassList tr ph pj l) = fullPassList tr ph pj l := by
  rw [fullPassList_eq_map, fullPassList_eq_map, List.map_map]
  exact List.map_congr_left h

theorem fullPassList_all_text (tr : String → String) (ph : String → List DomNode)
    (pj : String → Option (List (String × String))) (l : List DomNode)
    (h : ∀ n ∈ l, isElemNode n = false) : fullPassList tr ph pj l = l := by
  rw [fullPassList_eq_map]
  exact map_fixes_all_text _ (fullPassNode_text tr ph pj) l h

theorem applicable_trim (tr : String → String) (key : String)
    (Htr : ∀ k, tr k ≠ "" → tr k ≠ k → jsTrim (tr k) ≠ "")
    (hg : (key != "" && applicable tr key) = true) : (jsTrim (tr key) != "") = true := by
  have hap : applicable tr key = true := ((Bool.and_eq_true _ _).mp hg).2
  unfold applicable at hap
  obtain ⟨h1, h2⟩ := (Bool.and_eq_true _ _).mp hap
  exact bne_iff_ne.mpr (Htr key (bne_iff_ne.mp h1) (bne_iff_ne.mp h2))

theorem fullPassList_stable_of_items (tr : String → String) (ph : String → List DomNode)
    (pj : String → Option (List (String × String))) (cs3 cs : List DomNode)
    (hIH : ∀ m ∈ cs, fullPassNode tr ph pj (fullPassNode tr ph pj m) = fullPassNode tr ph pj m)
    (hitems : ∀ x ∈ cs3, (∃ c, x = DomNode.text c) ∨
      ∃ m ∈ cs, x = fullPassNode tr ph pj m) :
    fullPassList tr ph pj cs3 = cs3 := by
  rw [fullPassList_eq_map]
  refine map_eq_self_of_mem _ cs3 ?_
  intro x hx
  rcases hitems x hx with ⟨c, rfl⟩ | ⟨m, hm, rfl⟩
  · rfl
  · exact hIH m hm

theorem textPass_replace_again (tr : String → String) (ph : String → List DomNode)
    (pj : String → Option (List (String × String))) (pre post : List DomNode) (t1 : String)
    (hpre : ∀ n ∈ pre, hasLoopText n = false) (ht1 : (jsTrim t1 != "") = true) :
    replaceFirstText (textPassList tr (attrPassList tr pj (htmlPassList tr ph
      (pre ++ DomNode.text t1 :: post)))) t1 =
      some (textPassList tr (attrPassList tr pj (htmlPassList tr ph
        (pre ++ DomNode.text t1 :: post)))) := by
  rw [htmlPassList_eq_map, attrPassList_eq_map, textPassList_eq_map, List.map_map,
    List.map_map, List.map_append, List.map_cons]
  refine replaceFirstText_first _ _ t1 ?_ ht1
  intro n hn
  obtain ⟨y, hy, rfl⟩ := List.mem_map.mp hn
  show hasLoopText (textPassNode tr (attrPassNode tr pj (htmlPassNode tr ph y))) = false
  rw [textPassNode_hasLoopText, attrPassNode_hasLoopText, htmlPassNode_hasLoopText]
  exact hpre y hy

theorem filter_length_pipeline (tr : String → String) (ph : String → List DomNode)
    (pj : String → Option (List (String × String))) (l : List DomNode) :
    ((textPassList tr (attrPassList tr pj (htmlPassList tr ph l))).filter
        isElemNode).length = (l.filter isElemNode).length := by
  rw [htmlPassList_eq_map, attrPassList_eq_map, textPassList_eq_map, List.map_map,
    List.map_map]
  refine filter_isElem_map_length _ ?_ l
  intro n
  show isElemNode (textPassNode tr (attrPassNode tr pj (htmlPassNode tr ph n))) = _
  rw [textPassNode_isElem, attrPassNode_isElem, htmlPassNode_isElem]

theorem filter_replace_eq (pre post : List DomNode) (c t : String) :
    ((pre ++ DomNode.text t :: post).filter isElemNode) =
      ((pre ++ DomNode.text c :: post).filter isElemNode) := by
  simp [List.filter_append, isElemNode]

theorem fullPassNode_stable (tr : String → String) (ph : String → List DomNode)
    (pj : String → Option (List (String × String)))
    (i3 i3' : ElemInfo) (cs3 X : List DomNode)
    (hT : textPassNode tr (.elem i3 cs3) = .elem i3' X)
    (hAU : attrUpdateInfo tr pj i3' = i3)
    (hm2p : i3'.attrs "data-i18n-html" = i3.attrs "data-i18n-html")
    (hdisj : (∃ key2, i3.attrs "data-i18n-html" = some key2 ∧
        (key2 != "" && applicable tr key2) = true ∧
        cs3 = attrPassList tr pj (ph (tr key2))) ∨
      ((i3.attrs "data-i18n-html" = none ∨
        ∃ key2, i3.attrs "data-i18n-html" = some key2 ∧
          (key2 != "" && applicable tr key2) = false) ∧
        attrPassList tr pj (htmlPassList tr ph X) = cs3)) :
    fullPassNode tr ph pj (.elem i3 cs3) = .elem i3 cs3 := by
  show attrPassNode tr pj (htmlPassNode tr ph (textPassNode tr (.elem i3 cs3))) = _
  rw [hT]
  rcases hdisj with ⟨key2, hm2, hg2, hcs3⟩ | ⟨hno, hcs3⟩
  · rw [htmlPassNode_applicable tr ph i3' X key2 (hm2p.trans hm2) hg2,
      attrPassNode_elem, hAU, ← hcs3]
  · have hno' : i3'.attrs "data-i18n-html" = none ∨
        ∃ key2, i3'.attrs "data-i18n-html" = some key2 ∧
          (key2 != "" && applicable tr key2) = false := by
      rcases hno with h | ⟨key2, h, hg⟩
      · exact Or.inl (hm2p.trans h)
      · exact Or.inr ⟨key2, hm2p.trans h, hg⟩
    rw [htmlPassNode_not_applicable tr ph i3' X hno', attrPassNode_elem, hAU, hcs3]

theorem generic_children_cont (tr : String → String) (ph : String → List DomNode)
    (pj : String → Option (List (String × String)))
    (Htr : ∀ k, tr k ≠ "" → tr k ≠ k → jsTrim (tr k) ≠ "")
    (i3 : ElemInfo) (pre post : List DomNode) (key1 : String)
    (hm1 : i3.attrs "data-i18n" = some key1)
    (hg1 : (key1 != "" && applicable tr key1) = true)
    (hkind : i3.kind = ElemKind.generic)
    (hpre : ∀ n ∈ pre, hasLoopText n = false)
    (hpos : 0 < ((pre ++ DomNode.text (tr key1) :: post).filter isElemNode).length) :
    textPassNode tr (.elem i3 (attrPassList tr pj (htmlPassList tr ph
        (pre ++ DomNode.text (tr key1) :: post)))) =
      .elem i3 (textPassList tr (attrPassList tr pj (htmlPassList tr ph
        (pre ++ DomNode.text (tr key1) :: post)))) := by
  rw [textPassNode_applicable tr i3 _ key1 hm1 hg1]
  rw [updateElement_generic i3 _ (tr key1) hkind]
  have hlen : ((textPassList tr (attrPassList tr pj (htmlPassList tr ph
      (pre ++ DomNode.text (tr key1) :: post)))).filter isElemNode).length =
      ((pre ++ DomNode.text (tr key1) :: post).filter isElemNode).length :=
    filter_length_pipeline tr ph pj _
  rw [if_pos (by rw [hlen]; exact hpos)]
  rw [textPass_replace_again tr ph pj pre post (tr key1) hpre
    (applicable_trim tr key1 Htr hg1)]

theorem generic_children_stable (tr : String → String) (ph : String → List DomNode)
    (pj : String → Option (List (String × String)))
    (cs pre post : List DomNode) (t1 : String)
    (hIH : ∀ m ∈ cs, fullPassNode tr ph pj (fullPassNode tr ph pj m) = fullPassNode tr ph pj m)
    (hmem : ∀ y ∈ pre ++ post, ∃ m ∈ cs, y = textPassNode tr m) :
    fullPassList tr ph pj (attrPassList tr pj (htmlPassList tr ph
      (pre ++ DomNode.text t1 :: post))) =
      attrPassList tr pj (htmlPassList tr ph (pre ++ DomNode.text t1 :: post)) := by
  refine fullPassList_stable_of_items tr ph pj _ cs hIH ?_
  intro x hx
  rw [htmlPassList_eq_map, attrPassList_eq_map, List.map_map, List.map_append,
    List.map_cons] at hx
  rcases List.mem_append.mp hx with hx1 | hx2
  · obtain ⟨y, hy, rfl⟩ := List.mem_map.mp hx1
    obtain ⟨m, hm, rfl⟩ := hmem y (List.mem_append_left _ hy)
    exact Or.inr ⟨m, hm, rfl⟩
  · rcases List.mem_cons.mp hx2 with rfl | hx3
    · exact Or.inl ⟨t1, rfl⟩
    · obtain ⟨y, hy, rfl⟩ := List.mem_map.mp hx3
      obtain ⟨m, hm, rfl⟩ := hmem y (List.mem_append_right _ hy)
      exact Or.inr ⟨m, hm, rfl⟩

theorem elemType_congr (i1 info : ElemInfo) (hk : i1.kind = info.kind)
    (ht : i1.attrs "type" = info.attrs "type") : elemType i1 = elemType info := by
  unfold elemType
  rw [hk, ht]

theorem setTextContent_items (t : String) :
    ∀ x ∈ setTextContent t, ∃ c, x = DomNode.text c := by
  intro x hx
  unfold setTextContent at hx
  split at hx
  · cases hx
  · rcases List.mem_singleton.mp hx with rfl
    exact ⟨t, rfl⟩

theorem updateElement_items (info : ElemInfo) (cs0 : List DomNode) (t : String)
    (i2 : ElemInfo) (cs2 : List DomNode)
    (h : updateElement (.elem info cs0) t = .elem i2 cs2) :
    ∀ x ∈ cs2, (∃ c, x = DomNode.text c) ∨ x ∈ cs0 := by
  obtain ⟨k, v, a⟩ := info
  cases k with
  | input =>
    dsimp [updateElement] at h
    split at h <;>
      · injection h with h1 h2
        subst h2
        exact fun x hx => Or.inr hx
  | textarea =>
    dsimp [updateElement] at h
    split at h <;>
      · injection h with h1 h2
        subst h2
        exact fun x hx => Or.inr hx
  | option =>
    dsimp [updateElement] at h
    injection h with h1 h2
    subst h2
    exact fun x hx => Or.inl (setTextContent_items t x hx)
  | generic =>
    dsimp [updateElement] at h
    split at h
    · cases hrep : replaceFirstText cs0 t with
      | some r =>
        rw [hrep] at h
        injection h with h1 h2
        subst h2
        obtain ⟨pre, c, post, hcs0, hc, hpre, hr⟩ := replaceFirstText_some_shape cs0 t r hrep
        subst hr
        intro x hx
        rcases List.mem_append.mp hx with hx1 | hx2
        · exact Or.inr (hcs0 ▸ List.mem_append_left _ hx1)
        · rcases List.mem_cons.mp hx2 with rfl | hx3
          · exact Or.inl ⟨t, rfl⟩
          · exact Or.inr (hcs0 ▸ List.mem_append_right _ (List.mem_cons_of_mem _ hx3))
      | none =>
        rw [hrep] at h
        injection h with h1 h2
        subst h2
        intro x hx
        rcases List.mem_cons.mp hx with rfl | hx2
        · exact Or.inl ⟨t, rfl⟩
        · exact Or.inr hx2
    · split at h <;> injection h with h1 h2
      · subst h2
        exact fun x hx => Or.inl (setTextContent_items t x hx)
      · subst h2
        exact fun x hx => Or.inr hx

theorem updateIfMarked_items (tr : String → String) (info : ElemInfo) (cs0 : List DomNode)
    (i2 : ElemInfo) (cs2 : List DomNode)
    (h : updateIfMarked tr (.elem info cs0) = .elem i2 cs2) :
    ∀ x ∈ cs2, (∃ c, x = DomNode.text c) ∨ x ∈ cs0 := by
  rw [updateIfMarked_elem] at h
  cases hm : info.attrs "data-i18n" with
  | none =>
    rw [hm] at h
    injection h with h1 h2
    subst h2
    exact fun x hx => Or.inr hx
  | some key =>
    rw [hm] at h
    dsimp only at h
    split at h
    · exact updateElement_items info cs0 (tr key) i2 cs2 h
    · injection h with h1 h2
      subst h2
      exact fun x hx => Or.inr hx

theorem pipeline_items (tr : String → String) (ph : String → List DomNode)
    (pj : String → Option (List (String × String))) (u1 cs : List DomNode)
    (h : ∀ x ∈ u1, (∃ c, x = DomNode.text c) ∨ ∃ m ∈ cs, x = textPassNode tr m) :
    ∀ x ∈ attrPassList tr pj (htmlPassList tr ph u1),
      (∃ c, x = DomNode.text c) ∨ ∃ m ∈ cs, x = fullPassNode tr ph pj m := by
  intro x hx
  rw [htmlPassList_eq_map, attrPassList_eq_map, List.map_map] at hx
  obtain ⟨y, hy, rfl⟩ := List.mem_map.mp hx
  rcases h y hy with ⟨c, rfl⟩ | ⟨m, hm, rfl⟩
  · exact Or.inl ⟨c, rfl⟩
  · exact Or.inr ⟨m, hm, rfl⟩


theorem textPass_all_text (tr : String → String) (l : List DomNode)
    (h : ∀ n ∈ l, isElemNode n = false) : textPassList tr l = l := by
  rw [textPassList_eq_map]
  exact map_fixes_all_text _ (textPassNode_text tr) l h

theorem htmlAttr_all_text (tr : String → String) (ph : String → List DomNode)
    (pj : String → Option (List (String × String))) (l : List DomNode)
    (h : ∀ n ∈ l, isElemNode n = false) :
    attrPassList tr pj (htmlPassList tr ph l) = l := by
  rw [htmlPassList_eq_map, attrPassList_eq_map, List.map_map]
  refine map_fixes_all_text _ ?_ l h
  intro c
  show attrPassNode tr pj (htmlPassNode tr ph (DomNode.text c)) = DomNode.text c
  rw [htmlPassNode_text, attrPassNode_text]

theorem fullPassNode_idem (tr : String → String) (ph : String → List DomNode)
    (pj : String → Option (List (String × String)))
    (Htr : ∀ k, tr k ≠ "" → tr k ≠ k → jsTrim (tr k) ≠ "")
    (Hpj : ∀ s e, pj s = some e → safeEntries e) :
    ∀ n : DomNode, fullPassNode tr ph pj (fullPassNode tr ph pj n) = fullPassNode tr ph pj n
  | .text c => rfl
  | .elem info cs => by
    have IH : ∀ m ∈ cs, fullPassNode tr ph pj (fullPassNode tr ph pj m) =
        fullPassNode tr ph pj m := fun m hm => fullPassNode_idem tr ph pj Htr Hpj m
    obtain ⟨i1, u1, ht1, hk1, hp1, hp2, hp3, hp4⟩ :
        ∃ i1 u1, textPassNode tr (.elem info cs) = .elem i1 u1 ∧ i1.kind = info.kind ∧
          i1.attrs "data-i18n" = info.attrs "data-i18n" ∧
          i1.attrs "data-i18n-html" = info.attrs "data-i18n-html" ∧
          i1.attrs "data-i18n-attr" = info.attrs "data-i18n-attr" ∧
          i1.attrs "type" = info.attrs "type" := by
      rw [textPassNode_elem]
      exact updateIfMarked_shape tr info (textPassList tr cs)
    have hk3 : (attrUpdateInfo tr pj i1).kind = info.kind :=
      (attrUpdateInfo_kind tr pj i1).trans hk1
    have h31 : (attrUpdateInfo tr pj i1).attrs "data-i18n" = info.attrs "data-i18n" :=
      (attrUpdateInfo_marker tr pj Hpj i1 _ (by tauto)).trans hp1
    have h32 : (attrUpdateInfo tr pj i1).attrs "data-i18n-html" =
        info.attrs "data-i18n-html" :=
      (attrUpdateInfo_marker tr pj Hpj i1 _ (by tauto)).trans hp2
    have hty3 : elemType (attrUpdateInfo tr pj i1) = elemType info :=
      (elemType_attrUpdateInfo tr pj Hpj i1).trans (elemType_congr i1 info hk1 hp4)
    have hAUidem : attrUpdateInfo tr pj (attrUpdateInfo tr pj i1) = attrUpdateInfo tr pj i1 :=
      attrUpdateInfo_idem tr pj Hpj i1
    have hu1items : ∀ x ∈ u1, (∃ c, x = DomNode.text c) ∨ ∃ m ∈ cs, x = textPassNode tr m := by
      have h0 := updateIfMarked_items tr info (textPassList tr cs) i1 u1
        (by rw [← textPassNode_elem]; exact ht1)
      intro x hx
      rcases h0 x hx with hc | hmem
      · exact Or.inl hc
      · rw [textPassList_eq_map] at hmem
        obtain ⟨m, hm, rfl⟩ := List.mem_map.mp hmem
        exact Or.inr ⟨m, hm, rfl⟩
    have hstab : fullPassList tr ph pj (attrPassList tr pj (htmlPassList tr ph u1)) =
        attrPassList tr pj (htmlPassList tr ph u1) :=
      fullPassList_stable_of_items tr ph pj _ cs IH (pipeline_items tr ph pj u1 cs hu1items)
    have controlCase : ∀ (key1 : String) (cs3 : List DomNode),
        (attrUpdateInfo tr pj i1).attrs "data-i18n" = some key1 →
        (key1 != "" && applicable tr key1) = true →
        (info.kind = ElemKind.input ∨ info.kind = ElemKind.textarea) →
        ((∃ key2, (attrUpdateInfo tr pj i1).attrs "data-i18n-html" = some key2 ∧
            (key2 != "" && applicable tr key2) = true ∧
            cs3 = attrPassList tr pj (ph (tr key2))) ∨
          (((attrUpdateInfo tr pj i1).attrs "data-i18n-html" = none ∨
            ∃ key2, (attrUpdateInfo tr pj i1).attrs "data-i18n-html" = some key2 ∧
              (key2 != "" && applicable tr key2) = false) ∧
            attrPassList tr pj (htmlPassList tr ph (textPassList tr cs3)) = cs3)) →
        fullPassNode tr ph pj (.elem (attrUpdateInfo tr pj i1) cs3) =
          .elem (attrUpdateInfo tr pj i1) cs3 := by
      intro key1 cs3 hm1i3 hg1 hkc hdisj
      have hm1info : info.attrs "data-i18n" = some key1 := h31.symm.trans hm1i3
      by_cases hty : (elemType (attrUpdateInfo tr pj i1) == "submit" ||
          elemType (attrUpdateInfo tr pj i1) == "button") = true
      · have htyinfo : (elemType info == "submit" || elemType info == "button") = true := by
          rw [← hty3]
          exact hty
        have ht1V : textPassNode tr (.elem info cs) =
            .elem { info with value := tr key1 } (textPassList tr cs) := by
          rw [textPassNode_applicable tr info cs key1 hm1info hg1]
          exact updateElement_control_value info _ (tr key1) hkc htyinfo
        rw [ht1] at ht1V
        injection ht1V with hA hB
        subst hA
        have hT2 : textPassNode tr
            (.elem (attrUpdateInfo tr pj { info with value := tr key1 }) cs3) =
            .elem { attrUpdateInfo tr pj { info with value := tr key1 } with
                value := tr key1 } (textPassList tr cs3) := by
          rw [textPassNode_applicable tr _ cs3 key1 hm1i3 hg1]
          exact updateElement_control_value _ _ (tr key1)
            (by rcases hkc with h | h
                · exact Or.inl (hk3.trans h)
                · exact Or.inr (hk3.trans h)) hty
        exact fullPassNode_stable tr ph pj _ _ cs3 _ hT2
          (attrUpdateInfo_value_cycle tr pj Hpj info (tr key1)) rfl hdisj
      · have htyf : (elemType (attrUpdateInfo tr pj i1) == "submit" ||
            elemType (attrUpdateInfo tr pj i1) == "button") = false := Bool.eq_false_iff.mpr hty
        have htyinfo : (elemType info == "submit" || elemType info == "button") = false := by
          rw [← hty3]
          exact htyf
        have ht1P : textPassNode tr (.elem info cs) =
            .elem { info with attrs := setAttr info.attrs "placeholder" (tr key1) }
              (textPassList tr cs) := by
          rw [textPassNode_applicable tr info cs key1 hm1info hg1]
          exact updateElement_control_placeholder info _ (tr key1) hkc htyinfo
        rw [ht1] at ht1P
        injection ht1P with hA hB
        subst hA
        have hT2 : textPassNode tr
            (.elem (attrUpdateInfo tr pj
              { info with attrs := setAttr info.attrs "placeholder" (tr key1) }) cs3) =
            .elem { attrUpdateInfo tr pj
                { info with attrs := setAttr info.attrs "placeholder" (tr key1) } with
                attrs := setAttr (attrUpdateInfo tr pj
                  { info with
                    attrs := setAttr info.attrs "placeholder" (tr key1) }).attrs
                  "placeholder" (tr key1) } (textPassList tr cs3) := by
          rw [textPassNode_applicable tr _ cs3 key1 hm1i3 hg1]
          exact updateElement_control_placeholder _ _ (tr key1)
            (by rcases hkc with h | h
                · exact Or.inl (hk3.trans h)
                · exact Or.inr (hk3.trans h)) htyf
        exact fullPassNode_stable tr ph pj _ _ cs3 _ hT2
          (attrUpdateInfo_placeholder_cycle tr pj Hpj info (tr key1))
          (setAttr_marker (attrUpdateInfo tr pj
              { info with attrs := setAttr info.attrs "placeholder" (tr key1) }).attrs
            (tr key1) "data-i18n-html" (Or.inr (Or.inl rfl))) hdisj
    have mainB :
        ((attrUpdateInfo tr pj i1).attrs "data-i18n-html" = none ∨
          ∃ key2, (attrUpdateInfo tr pj i1).attrs "data-i18n-html" = some key2 ∧
            (key2 != "" && applicable tr key2) = false) →
        (i1.attrs "data-i18n-html" = none ∨
          ∃ key2, i1.attrs "data-i18n-html" = some key2 ∧
            (key2 != "" && applicable tr key2) = false) →
        fullPassNode tr ph pj (fullPassNode tr ph pj (.elem info cs)) =
          fullPassNode tr ph pj (.elem info cs) := by
      intro hnoAU hno1
      have hrun1 : fullPassNode tr ph pj (.elem info cs) =
          .elem (attrUpdateInfo tr pj i1) (attrPassList tr pj (htmlPassList tr ph u1)) := by
        show attrPassNode tr pj (htmlPassNode tr ph (textPassNode tr (.elem info cs))) = _
        rw [ht1, htmlPassNode_not_applicable tr ph i1 u1 hno1, attrPassNode_elem]
      rw [hrun1]
      cases hm1c : info.attrs "data-i18n" with
      | none =>
        have hT : textPassNode tr (.elem (attrUpdateInfo tr pj i1)
            (attrPassList tr pj (htmlPassList tr ph u1))) =
            .elem (attrUpdateInfo tr pj i1)
              (textPassList tr (attrPassList tr pj (htmlPassList tr ph u1))) :=
          textPassNode_not_applicable tr _ _ (Or.inl (h31.trans hm1c))
        exact fullPassNode_stable tr ph pj _ _ _ _ hT hAUidem rfl
          (Or.inr ⟨hnoAU, hstab⟩)
      | some key1 =>
        by_cases hg1 : (key1 != "" && applicable tr key1) = true
        · have hm1AU : (attrUpdateInfo tr pj i1).attrs "data-i18n" = some key1 :=
            h31.trans hm1c
          have hap : applicable tr key1 = true := ((Bool.and_eq_true _ _).mp hg1).2
          have hne : (tr key1 == "") = false := by
            unfold applicable at hap
            exact beq_eq_false_iff_ne.mpr
              (bne_iff_ne.mp ((Bool.and_eq_true _ _).mp hap).1)
          cases hkind : info.kind with
          | input =>
            exact controlCase key1 _ hm1AU hg1 (Or.inl hkind) (Or.inr ⟨hnoAU, hstab⟩)
          | textarea =>
            exact controlCase key1 _ hm1AU hg1 (Or.inr hkind) (Or.inr ⟨hnoAU, hstab⟩)
          | option =>
            have ht1O : (DomNode.elem i1 u1 : DomNode) =
                .elem info (setTextContent (tr key1)) := by
              rw [← ht1, textPassNode_applicable tr info cs key1 hm1c hg1]
              exact updateElement_option_kind info _ (tr key1) hkind
            injection ht1O with hA hB
            subst hA
            subst hB
            have hst : setTextContent (tr key1) = [DomNode.text (tr key1)] :=
              setTextContent_ne _ hne
            rw [hst]
            have hsingle : attrPassList tr pj (htmlPassList tr ph
                [DomNode.text (tr key1)]) = [DomNode.text (tr key1)] := by
              refine htmlAttr_all_text tr ph pj _ ?_
              intro n hn
              rcases List.mem_singleton.mp hn with rfl
              rfl
            rw [hsingle]
            have hT : textPassNode tr (.elem (attrUpdateInfo tr pj i1)
                [DomNode.text (tr key1)]) =
                .elem (attrUpdateInfo tr pj i1) [DomNode.text (tr key1)] := by
              rw [textPassNode_applicable tr _ _ key1 hm1AU hg1]
              have hred : textPassList tr [DomNode.text (tr key1)] =
                  [DomNode.text (tr key1)] := by
                rw [textPassList_eq_map, List.map_cons, List.map_nil, textPassNode_text]
              rw [hred, updateElement_option_kind _ _ (tr key1) (hk3.trans hkind), hst]
            exact fullPassNode_stable tr ph pj _ _ _ _ hT hAUidem rfl
              (Or.inr ⟨hnoAU, hsingle⟩)
          | generic =>
            have ht1G : (DomNode.elem i1 u1 : DomNode) =
                updateElement (.elem info (textPassList tr cs)) (tr key1) := by
              rw [← ht1]
              exact textPassNode_applicable tr info cs key1 hm1c hg1
            rw [updateElement_generic info _ (tr key1) hkind] at ht1G
            by_cases hfl : 0 < ((textPassList tr cs).filter isElemNode).length
            · rw [if_pos hfl] at ht1G
              cases hrep : replaceFirstText (textPassList tr cs) (tr key1) with
              | some r =>
                rw [hrep] at ht1G
                injection ht1G with hA hB
                subst hA
                subst hB
                obtain ⟨pre, c, post, hcs0, hcne, hpre, hr⟩ :=
                  replaceFirstText_some_shape (textPassList tr cs) (tr key1) u1 hrep
                subst hr
                have hpos : 0 < ((pre ++ DomNode.text (tr key1) :: post).filter
                    isElemNode).length := by
                  rw [filter_replace_eq pre post c (tr key1), ← hcs0]
                  exact hfl
                have hT := generic_children_cont tr ph pj Htr (attrUpdateInfo tr pj i1)
                  pre post key1 hm1AU hg1 (hk3.trans hkind) hpre hpos
                exact fullPassNode_stable tr ph pj _ _ _ _ hT hAUidem rfl
                  (Or.inr ⟨hnoAU, hstab⟩)
              | none =>
                rw [hrep] at ht1G
                injection ht1G with hA hB
                subst hA
                subst hB
                have hpre : ∀ n ∈ ([] : List DomNode), hasLoopText n = false := by
                  intro n hn
                  cases hn
                have hpos : 0 < ((([] : List DomNode) ++ DomNode.text (tr key1) ::
                    textPassList tr cs).filter isElemNode).length := by
                  simpa [List.filter_cons, isElemNode] using hfl
                have hT := generic_children_cont tr ph pj Htr (attrUpdateInfo tr pj i1)
                  [] (textPassList tr cs) key1 hm1AU hg1 (hk3.trans hkind) hpre hpos
                exact fullPassNode_stable tr ph pj _ _ _ _ hT hAUidem rfl
                  (Or.inr ⟨hnoAU, hstab⟩)
            · rw [if_neg hfl] at ht1G
              by_cases hgd : (textContentList (textPassList tr cs) != tr key1) = true
              · rw [if_pos hgd] at ht1G
                injection ht1G with hA hB
                subst hA
                subst hB
                have hst : setTextContent (tr key1) = [DomNode.text (tr key1)] :=
                  setTextContent_ne _ hne
                rw [hst]
                have hsingle : attrPassList tr pj (htmlPassList tr ph
                    [DomNode.text (tr key1)]) = [DomNode.text (tr key1)] := by
                  refine htmlAttr_all_text tr ph pj _ ?_
                  intro n hn
                  rcases List.mem_singleton.mp hn with rfl
                  rfl
                rw [hsingle]
                have hT : textPassNode tr (.elem (attrUpdateInfo tr pj i1)
                    [DomNode.text (tr key1)]) =
                    .elem (attrUpdateInfo tr pj i1) [DomNode.text (tr key1)] := by
                  rw [textPassNode_applicable tr _ _ key1 hm1AU hg1]
                  have hred : textPassList tr [DomNode.text (tr key1)] =
                      [DomNode.text (tr key1)] := by
                    rw [textPassList_eq_map, List.map_cons, List.map_nil, textPassNode_text]
                  rw [hred, updateElement_generic _ _ (tr key1) (hk3.trans hkind)]
                  rw [if_neg (by simp [List.filter_cons, isElemNode])]
                  rw [if_neg (by simp [textContentList_single])]
                exact fullPassNode_stable tr ph pj _ _ _ _ hT hAUidem rfl
                  (Or.inr ⟨hnoAU, hsingle⟩)
              · rw [if_neg hgd] at ht1G
                injection ht1G with hA hB
                subst hA
                subst hB
                have hlen0 : ((textPassList tr cs).filter isElemNode).length = 0 := by
                  omega
                have hall : ∀ n ∈ textPassList tr cs, isElemNode n = false :=
                  all_not_of_filter_nil (List.length_eq_zero.mp hlen0)
                have hP : attrPassList tr pj (htmlPassList tr ph (textPassList tr cs)) =
                    textPassList tr cs := htmlAttr_all_text tr ph pj _ hall
                rw [hP]
                have htc : textContentList (textPassList tr cs) = tr key1 := by
                  have h1 : (textContentList (textPassList tr cs) != tr key1) = false :=
                    Bool.eq_false_iff.mpr hgd
                  simpa using h1
                have hTP : textPassList tr (textPassList tr cs) = textPassList tr cs :=
                  textPass_all_text tr _ hall
                have hT : textPassNode tr (.elem (attrUpdateInfo tr pj i1)
                    (textPassList tr cs)) =
                    .elem (attrUpdateInfo tr pj i1) (textPassList tr cs) := by
                  rw [textPassNode_applicable tr _ _ key1 hm1AU hg1, hTP,
                    updateElement_generic _ _ (tr key1) (hk3.trans hkind)]
                  rw [if_neg hfl]
                  rw [if_neg (by simp [htc])]
                exact fullPassNode_stable tr ph pj _ _ _ _ hT hAUidem rfl
                  (Or.inr ⟨hnoAU, hP⟩)
        · have hT : textPassNode tr (.elem (attrUpdateInfo tr pj i1)
              (attrPassList tr pj (htmlPassList tr ph u1))) =
              .elem (attrUpdateInfo tr pj i1)
                (textPassList tr (attrPassList tr pj (htmlPassList tr ph u1))) :=
            textPassNode_not_applicable tr _ _
              (Or.inr ⟨key1, h31.trans hm1c, Bool.eq_false_iff.mpr hg1⟩)
          exact fullPassNode_stable tr ph pj _ _ _ _ hT hAUidem rfl
            (Or.inr ⟨hnoAU, hstab⟩)
    cases hm2c : info.attrs "data-i18n-html" with
    | none =>
      exact mainB (Or.inl (h32.trans hm2c)) (Or.inl (hp2.trans hm2c))
    | some key2 =>
      by_cases hg2 : (key2 != "" && applicable tr key2) = true
      · have hm2i1 : i1.attrs "data-i18n-html" = some key2 := hp2.trans hm2c
        have hm2AU : (attrUpdateInfo tr pj i1).attrs "data-i18n-html" = some key2 :=
          h32.trans hm2c
        have hrun1 : fullPassNode tr ph pj (.elem info cs) =
            .elem (attrUpdateInfo tr pj i1) (attrPassList tr pj (ph (tr key2))) := by
          show attrPassNode tr pj (htmlPassNode tr ph (textPassNode tr (.elem info cs))) = _
          rw [ht1, htmlPassNode_applicable tr ph i1 u1 key2 hm2i1 hg2, attrPassNode_elem]
        rw [hrun1]
        cases hm1c : info.attrs "data-i18n" with
        | none =>
          have hT : textPassNode tr (.elem (attrUpdateInfo tr pj i1)
              (attrPassList tr pj (ph (tr key2)))) =
              .elem (attrUpdateInfo tr pj i1)
                (textPassList tr (attrPassList tr pj (ph (tr key2)))) :=
            textPassNode_not_applicable tr _ _ (Or.inl (h31.trans hm1c))
          exact fullPassNode_stable tr ph pj _ _ _ _ hT hAUidem rfl
            (Or.inl ⟨key2, hm2AU, hg2, rfl⟩)
        | some key1 =>
          by_cases hg1 : (key1 != "" && applicable tr key1) = true
          · have hm1AU : (attrUpdateInfo tr pj i1).attrs "data-i18n" = some key1 :=
              h31.trans hm1c
            cases hkind : info.kind with
            | input =>
              exact controlCase key1 _ hm1AU hg1 (Or.inl hkind)
                (Or.inl ⟨key2, hm2AU, hg2, rfl⟩)
            | textarea =>
              exact controlCase key1 _ hm1AU hg1 (Or.inr hkind)
                (Or.inl ⟨key2, hm2AU, hg2, rfl⟩)
            | option =>
              have hT : textPassNode tr (.elem (attrUpdateInfo tr pj i1)
                  (attrPassList tr pj (ph (tr key2)))) =
                  .elem (attrUpdateInfo tr pj i1) (setTextContent (tr key1)) := by
                rw [textPassNode_applicable tr _ _ key1 hm1AU hg1]
                exact updateElement_option_kind _ _ (tr key1) (hk3.trans hkind)
              exact fullPassNode_stable tr ph pj _ _ _ _ hT hAUidem rfl
                (Or.inl ⟨key2, hm2AU, hg2, rfl⟩)
            | generic =>
              obtain ⟨cs2, hcs2⟩ := updateElement_generic_shape (attrUpdateInfo tr pj i1)
                (textPassList tr (attrPassList tr pj (ph (tr key2)))) (tr key1)
                (hk3.trans hkind)
              have hT : textPassNode tr (.elem (attrUpdateInfo tr pj i1)
                  (attrPassList tr pj (ph (tr key2)))) =
                  .elem (attrUpdateInfo tr pj i1) cs2 := by
                rw [textPassNode_applicable tr _ _ key1 hm1AU hg1]
                exact hcs2
              exact fullPassNode_stable tr ph pj _ _ _ _ hT hAUidem rfl
                (Or.inl ⟨key2, hm2AU, hg2, rfl⟩)
          · have hT : textPassNode tr (.elem (attrUpdateInfo tr pj i1)
                (attrPassList tr pj (ph (tr key2)))) =
                .elem (attrUpdateInfo tr pj i1)
                  (textPassList tr (attrPassList tr pj (ph (tr key2)))) :=
              textPassNode_not_applicable tr _ _
                (Or.inr ⟨key1, h31.trans hm1c, Bool.eq_false_iff.mpr hg1⟩)
            exact fullPassNode_stable tr ph pj _ _ _ _ hT hAUidem rfl
              (Or.inl ⟨key2, hm2AU, hg2, rfl⟩)
      · exact mainB (Or.inr ⟨key2, h32.trans hm2c, Bool.eq_false_iff.mpr hg2⟩)
          (Or.inr ⟨key2, hp2.trans hm2c, Bool.eq_false_iff.mpr hg2⟩)
termination_by n => sizeOf n
decreasing_by
  simp_wf
  have := List.sizeOf_lt_of_mem hm
  omega

theorem metaPass_char (tr : String → String) (b : List DomNode) (ti : String)
    (md : Option String) (tk dk : Option String) :
    metaPass tr (Document.mk b ti md tk dk) =
      Document.mk b
        (match tk with
          | some key => if key != "" && applicable tr key then tr key else ti
          | none => ti)
        (match dk with
          | some key =>
            if key != "" then
              match md with
              | some m => if applicable tr key then some (tr key) else some m
              | none => none
            else md
          | none => md)
        tk dk := by
  cases tk <;> cases dk <;> cases md <;>
    simp [metaPass] <;> split_ifs <;> (first | rfl | simp_all)

theorem metaPass_body (tr : String → String) (doc : Document) :
    (metaPass tr doc).body = doc.body := by
  obtain ⟨b, ti, md, tk, dk⟩ := doc
  rw [metaPass_char]

theorem metaPass_idem (tr : String → String) (doc : Document) :
    metaPass tr (metaPass tr doc) = metaPass tr doc := by
  obtain ⟨b, ti, md, tk, dk⟩ := doc
  rw [metaPass_char, metaPass_char]
  cases tk <;> cases dk <;> cases md <;> simp <;> split_ifs <;> simp_all

theorem body_update_self (d : Document) : { d with body := d.body } = d := by
  obtain ⟨b, ti, md, tk, dk⟩ := d
  rfl

theorem applyTranslationsBody_idem (tr : String → String) (ph : String → List DomNode)
    (pj : String → Option (List (String × String)))
    (Htr : ∀ k, tr k ≠ "" → tr k ≠ k → jsTrim (tr k) ≠ "")
    (Hpj : ∀ s e, pj s = some e → safeEntries e) (doc : Document) :
    applyTranslationsBody tr ph pj (applyTranslationsBody tr ph pj doc) =
      applyTranslationsBody tr ph pj doc := by
  unfold applyTranslationsBody
  have hb : (metaPass tr { doc with body := fullPassList tr ph pj doc.body }).body =
      fullPassList tr ph pj doc.body := metaPass_body tr _
  have hfix : ∀ d : Document, d.body = fullPassList tr ph pj doc.body →
      metaPass tr { d with body := fullPassList tr ph pj doc.body } = metaPass tr d := by
    intro d hd
    rw [← hd, body_update_self]
  rw [hb, fullPassList_idem_of tr ph pj doc.body
    (fun m hm => fullPassNode_idem tr ph pj Htr Hpj m), hfix _ hb, metaPass_idem]

/-- C6 counterexample: one full synchronization pass is not idempotent in
general. With the whitespace translation trBlank and the document docBlank,
whose marked element has an element child, the first pass rewrites the text
child to a blank string, and the second pass no longer finds a non-blank
text child, so it inserts a fresh text node: the number of DOM nodes grows
from 3 to 4 on the second run, an observable mutation. -/
theorem applyTranslations_not_idempotent :
    applyTranslations trBlank phEmpty pjNone false
        (applyTranslations trBlank phEmpty pjNone false docBlank) ≠
      applyTranslations trBlank phEmpty pjNone false docBlank :=
  fun h => absurd (congrArg (fun d => countList d.body) h) (by decide)

/-- C6 (amended): the full synchronization pass applyTranslations, with the
reentrancy flag clear, is idempotent for every annotation kind, provided
every translation actually applied to a plain-text marker has non-blank
trimmed content and no attribute map written by the attribute pass writes
the marker attributes or the type attribute: a second run with no DOM,
dictionary or locale change in between is the identity on the document. -/
theorem applyTranslations_idempotent (tr : String → String) (ph : String → List DomNode)
    (pj : String → Option (List (String × String)))
    (Htr : ∀ k, tr k ≠ "" → tr k ≠ k → jsTrim (tr k) ≠ "")
    (Hpj : ∀ s e, pj s = some e → safeEntries e) (doc : Document) :
    applyTranslations tr ph pj false (applyTranslations tr ph pj false doc) =
      applyTranslations tr ph pj false doc := by
  show applyTranslationsBody tr ph pj (applyTranslationsBody tr ph pj doc) = _
  exact applyTranslationsBody_idem tr ph pj Htr Hpj doc

/-- Witness for the amended C6 theorem: the identity translation map and
the trivial oracles satisfy the side conditions at the concrete document
docBlank. -/
theorem applyTranslations_idempotent_witness :
    applyTranslations (fun k => k) phEmpty pjNone false
        (applyTranslations (fun k => k) phEmpty pjNone false docBlank) =
      applyTranslations (fun k => k) phEmpty pjNone false docBlank :=
  applyTranslations_idempotent (fun k => k) phEmpty pjNone
    (fun _ _ h2 => absurd rfl h2) (fun _ _ h => Option.noConfusion h) docBlank

end I18nSpec

